import Mathlib

/-!
# Uno Flip Mercy: the turn engine of `src/main.cpp`

A shallow embedding of the card game in `src/main.cpp`: cards and the
legality predicate, the deck (`initialize`, `shuffle`, `draw`), the players'
decisions, `Game::setup` and the loop of `Game::start`, one iteration at a
time.

Conventions of the embedding.

* `vector<Card>` is a `List Card`; the back of the vector is the last element
  of the list.
* The program has no `throw` and no error return.  An operation the C++
  standard gives no meaning to (`back()`/`pop_back()` on an empty vector,
  `operator[]` outside a container) yields `Except.error` with
  the `Undefined` kind that names it; `Except.ok` is a defined result.
* Console output is not modelled, except for the array read
  `colors[(int)newColor]` of line 183, which is undefined for an index outside
  the four entries of line 182 (`colorName`).  In the turn loop, console input is
  modelled by the values the interactive player's calls return
  (`HumanInput`); the two methods that read it, `HumanPlayer::playTurn` and
  `HumanPlayer::chooseColor`, are modelled on a stream of tokens, with a bound
  `fuel` on the number of prompts: `none` means no return within the bound.
* The random source of `Deck::shuffle` is a parameter, `rnd`.
* `int`/`size_t` arithmetic is over `Int`/`Nat`, with the reduction modulo
  `2 ^ 64` written out where the program mixes `int` and `size_t`
  (`nextIndex`).
-/

/-! ## Data model (lines 12-28) -/

/-- The `enum class Color` of line 12, enumerators in declaration order. -/
inductive Color where
  | Red | Pink | Purple | Yellow | None
  deriving DecidableEq

/-- The `enum class Value` of line 13, enumerators in declaration order. -/
inductive Value where
  | One | Two | Three | Four | Five | Six | Seven | Eight | Nine
  | Reverse | DrawTwo | Block | DrawFour | ColorChange
  deriving DecidableEq

/-- The cast `static_cast<Color>(n)`: the enumerator whose underlying value is
`n`; an integer that no enumerator has gets no image. -/
def Color.ofNat? : Nat → Option Color
  | 0 => some .Red
  | 1 => some .Pink
  | 2 => some .Purple
  | 3 => some .Yellow
  | 4 => some .None
  | _ => none

/-- The cast `static_cast<Value>(n)`. -/
def Value.ofNat? : Nat → Option Value
  | 0 => some .One
  | 1 => some .Two
  | 2 => some .Three
  | 3 => some .Four
  | 4 => some .Five
  | 5 => some .Six
  | 6 => some .Seven
  | 7 => some .Eight
  | 8 => some .Nine
  | 9 => some .Reverse
  | 10 => some .DrawTwo
  | 11 => some .Block
  | 12 => some .DrawFour
  | 13 => some .ColorChange
  | _ => none

/-- The cast `(int)color`. -/
def Color.toNat : Color → Nat
  | .Red => 0
  | .Pink => 1
  | .Purple => 2
  | .Yellow => 3
  | .None => 4

/-- The class `Card` (lines 15-28): a color and a value. -/
structure Card where
  color : Color
  value : Value
  deriving DecidableEq

/-- The method `Card::canPlayOn` (lines 25-27). -/
def Card.canPlayOn (c : Card) (topCard : Card) : Bool :=
  c.color == topCard.color || c.value == topCard.value
    || c.value == Value.DrawFour || c.value == Value.ColorChange

/-! ## Deck (lines 30-68) -/

/-- The operations of the standard library that the program calls outside
their domain of definition. -/
inductive Undefined where
  /-- The call `cards.back()` or `cards.pop_back()` on an empty vector
  (lines 62-63). -/
  | backOfEmpty
  /-- An `operator[]` or `erase` at a position outside the container
  (lines 168, 175, 176, 187, 201), or a read outside the array `colors` of
  line 182 (line 183). -/
  | indexOutOfRange
  deriving DecidableEq

/-- The class `Deck`: its only data member is `cards`. -/
structure Deck where
  cards : List Card
  deriving DecidableEq

/-- The colors `static_cast<Color>(c)` for `c = 0, ..., numColors - 1`. -/
def Deck.colorsBelow (numColors : Nat) : List Color :=
  (List.range numColors).filterMap Color.ofNat?

/-- The values `static_cast<Value>(v)` for `v = 0, ..., 8` (line 39). -/
def Deck.valuesUpTo (last : Nat) : List Value :=
  (List.range (last + 1)).filterMap Value.ofNat?

/-- The method `Deck::initialize` (lines 35-53).  Every `push_back` appends at
the end of `cards`; the previous contents are dropped by `cards.clear()`. -/
def Deck.initialize (_self : Deck) : Deck :=
  let cards : List Card := []
  let numColors := 4
  let cards := (Deck.colorsBelow numColors).foldl (fun cards c =>
    let cards := (Deck.valuesUpTo 8).foldl (fun cards v =>
      (cards ++ [Card.mk c v]) ++ [Card.mk c v]) cards
    ((cards ++ [Card.mk c Value.Reverse]) ++ [Card.mk c Value.DrawTwo])
      ++ [Card.mk c Value.Block]) cards
  let cards := (List.range 4).foldl (fun cards _ =>
    cards ++ [Card.mk Color.None Value.DrawFour]) cards
  let cards := (List.range 2).foldl (fun cards _ =>
    cards ++ [Card.mk Color.None Value.ColorChange]) cards
  { cards := cards }

/-- The method `Deck::draw` (lines 61-65): the last card and the deck without
it.  There is no emptiness test in the source: on an empty vector `back()` is
undefined. -/
def Deck.draw (self : Deck) : Except Undefined (Card × Deck) :=
  match self.cards.getLast? with
  | none => Except.error Undefined.backOfEmpty
  | some c => Except.ok (c, { cards := self.cards.dropLast })

/-- The method `Deck::empty` (line 67). -/
def Deck.empty (self : Deck) : Bool :=
  self.cards.isEmpty

/-! ## Players (lines 70-146) -/

/-- The two classes derived from `Player`. -/
inductive PlayerKind where
  | Human | AI
  deriving DecidableEq

/-- The class `Player` (lines 70-88) with the dynamic type of the object. -/
structure Player where
  name : String
  kind : PlayerKind
  hand : List Card
  deriving DecidableEq

/-- The loop of `Player::drawCard` (lines 77-78) with `n` iterations left:
each iteration draws from the deck and appends the card to the hand. -/
def Player.drawLoop : Nat → List Card → Deck → Except Undefined (List Card × Deck)
  | 0, hand, deck => Except.ok (hand, deck)
  | n + 1, hand, deck =>
    match deck.draw with
    | Except.error e => Except.error e
    | Except.ok (c, deck) => Player.drawLoop n (hand ++ [c]) deck

/-- The method `Player::drawCard` (lines 76-79); `count` is 1 by default.  The
test `i < count` from `i = 0` runs the body `count` times, and not at all for a
negative `count`. -/
def Player.drawCard (self : Player) (deck : Deck) (count : Int := 1) :
    Except Undefined (Player × Deck) :=
  match Player.drawLoop count.toNat self.hand deck with
  | Except.error e => Except.error e
  | Except.ok (hand, deck) => Except.ok ({ self with hand := hand }, deck)

/-- The loop of `AIPlayer::playTurn` (lines 132-134) from index `i` on, `rest`
being the cards at the indices `i, i + 1, ...`. -/
def AIPlayer.scan (topCard : Card) : List Card → Nat → Int
  | [], _ => -1
  | c :: rest, i => if c.canPlayOn topCard then (i : Int) else AIPlayer.scan topCard rest (i + 1)

/-- The method `AIPlayer::playTurn` (lines 131-136).  The index is a `size_t`
returned as an `int`; the conversion is the identity for the hands of a
90-card deck. -/
def AIPlayer.playTurn (hand : List Card) (topCard : Card) : Int :=
  AIPlayer.scan topCard hand 0

/-- The statement `counts[i]++` on the array `counts`. -/
def AIPlayer.increment (counts : List Nat) (i : Nat) : List Nat :=
  counts.set i (counts.getD i 0 + 1)

/-- The method `AIPlayer::chooseColor` (lines 138-145). -/
def AIPlayer.chooseColor (hand : List Card) : Color :=
  let counts : List Nat := [0, 0, 0, 0]
  let counts := hand.foldl (fun counts card =>
    if card.color ≠ Color.None ∧ card.color.toNat < 4 then
      AIPlayer.increment counts card.color.toNat
    else counts) counts
  let maxIndex := [1, 2, 3].foldl (fun maxIndex i =>
    if counts.getD i 0 > counts.getD maxIndex 0 then i else maxIndex) 0
  -- `maxIndex` is one of 0, 1, 2, 3, so the cast has an image
  (Color.ofNat? maxIndex).getD Color.None

/-- What the interactive player's two methods return in one iteration of the
turn loop: the result of `HumanPlayer::playTurn` and of
`HumanPlayer::chooseColor`, both read from the console.  The color ranges over
the enumerators; the cast of 5, which `HumanPlayer::chooseColor` can return as
well, is not among them. -/
structure HumanInput where
  choice : Int
  color : Color
  deriving DecidableEq

/-- The virtual call `player->playTurn(topCard)`. -/
def Player.playTurn (self : Player) (topCard : Card) (inp : HumanInput) : Int :=
  match self.kind with
  | PlayerKind.Human => inp.choice
  | PlayerKind.AI => AIPlayer.playTurn self.hand topCard

/-- The virtual call `player->chooseColor()`. -/
def Player.chooseColor (self : Player) (inp : HumanInput) : Color :=
  match self.kind with
  | PlayerKind.Human => inp.color
  | PlayerKind.AI => AIPlayer.chooseColor self.hand

/-! ## Game (lines 148-207) -/

/-- The class `Game` (lines 148-155) together with `current`, the local
variable of `Game::start` that lives across the iterations of its loop. -/
structure Game where
  deck : Deck
  players : List Player
  topCard : Card
  direction : Int
  current : Int
  deriving DecidableEq

/-- The constructor `Game()` (line 155) on the deck that `Deck()` built: the
cards of `initialize` in the order the shuffle left them. -/
def Game.new (deck : Deck) : Game :=
  { deck := deck, players := [], topCard := Card.mk Color.Red Value.One,
    direction := 1, current := 0 }

/-- The access `players[i]` with an `int` index: the index is converted to
`size_t`, so a negative one is out of range as well. -/
def Game.playerAt (players : List Player) (i : Int) : Except Undefined Player :=
  if 0 ≤ i then
    match players[i.toNat]? with
    | some p => Except.ok p
    | none => Except.error Undefined.indexOutOfRange
  else Except.error Undefined.indexOutOfRange

/-- The access `player->hand[choice]` with an `int` index. -/
def Game.cardAt (hand : List Card) (i : Int) : Except Undefined Card :=
  if 0 ≤ i then
    match hand[i.toNat]? with
    | some c => Except.ok c
    | none => Except.error Undefined.indexOutOfRange
  else Except.error Undefined.indexOutOfRange

/-- The expression `(current + direction + players.size()) % players.size()`
(lines 186, 198, 200, 204): the `int` sum is converted to the 64-bit `size_t`
before `players.size()` is added.  It is evaluated only after `players[current]`
was read, so the divisor is not zero; the result is below `players.size()` and
is stored in an `int`. -/
def Game.nextIndex (current direction : Int) (size : Nat) : Int :=
  (((current + direction) % (2 : Int) ^ 64 + (size : Int)) % (2 : Int) ^ 64) % (size : Int)

/-- The statement `players[next]->drawCard(deck, count)` (lines 187, 201). -/
def Game.drawFor (self : Game) (next : Int) (count : Int) : Except Undefined Game :=
  match Game.playerAt self.players next with
  | Except.error e => Except.error e
  | Except.ok p =>
    match p.drawCard self.deck count with
    | Except.error e => Except.error e
    | Except.ok (p, deck) =>
      Except.ok { self with deck := deck, players := self.players.set next.toNat p }

/-- The loop of line 161: every player of the rest of the deque draws 5 cards. -/
def Game.dealLoop : List Player → Deck → Except Undefined (List Player × Deck)
  | [], deck => Except.ok ([], deck)
  | p :: rest, deck =>
    match p.drawCard deck 5 with
    | Except.error e => Except.error e
    | Except.ok (p, deck) =>
      match Game.dealLoop rest deck with
      | Except.error e => Except.error e
      | Except.ok (rest, deck) => Except.ok (p :: rest, deck)

/-- The method `Game::setup` (lines 157-163). -/
def Game.setup (self : Game) : Except Undefined Game :=
  let players := self.players ++
    [Player.mk "You" PlayerKind.Human [], Player.mk "AI-1" PlayerKind.AI [],
      Player.mk "AI-2" PlayerKind.AI []]
  match Game.dealLoop players self.deck with
  | Except.error e => Except.error e
  | Except.ok (players, deck) =>
    match deck.draw with
    | Except.error e => Except.error e
    | Except.ok (c, deck) => Except.ok { self with deck := deck, players := players, topCard := c }

/-- How one iteration of the loop of `Game::start` ends. -/
inductive Outcome where
  /-- The loop goes on with the next iteration from this state. -/
  | next (g : Game)
  /-- The `break` of line 193: the player at index `winner` wins. -/
  | wins (winner : Int) (g : Game)
  deriving DecidableEq

/-- The state an iteration ends in. -/
def Outcome.game : Outcome → Game
  | Outcome.next g => g
  | Outcome.wins _ g => g

/-- The read `colors[(int)newColor]` of line 183 on the array `colors` of line
182, which has the four entries "Red", "Pink", "Purple", "Yellow": the index 4
of `Color::None` is outside the array. -/
def Game.colorName (newColor : Color) : Except Undefined String :=
  match ["Red", "Pink", "Purple", "Yellow"][newColor.toNat]? with
  | some name => Except.ok name
  | none => Except.error Undefined.indexOutOfRange

/-- Lines 179-189: a DrawFour or ColorChange that was just played gets the color
its player chooses, the name of that color is read from the array `colors`, and
for a DrawFour the following player draws 4 cards. -/
def Game.wildEffect (self : Game) (inp : HumanInput) : Except Undefined Game :=
  if self.topCard.value = Value.DrawFour ∨ self.topCard.value = Value.ColorChange then
    match Game.playerAt self.players self.current with
    | Except.error e => Except.error e
    | Except.ok player =>
      let newColor := player.chooseColor inp
      let g := { self with topCard := { self.topCard with color := newColor } }
      match Game.colorName newColor with
      | Except.error e => Except.error e
      | Except.ok _ =>
        if g.topCard.value = Value.DrawFour then
          let next := Game.nextIndex g.current g.direction g.players.length
          g.drawFor next 4
        else Except.ok g
  else Except.ok self

/-- Lines 191-202: the win test on the current player's hand, then the effects
of a Reverse, a Block and a DrawTwo. -/
def Game.effects (self : Game) : Except Undefined Outcome :=
  match Game.playerAt self.players self.current with
  | Except.error e => Except.error e
  | Except.ok player =>
    if player.hand.isEmpty then Except.ok (Outcome.wins self.current self)
    else
      let g := if self.topCard.value = Value.Reverse then
        { self with direction := self.direction * -1 } else self
      let g := if g.topCard.value = Value.Block then
        { g with current := Game.nextIndex g.current g.direction g.players.length } else g
      if g.topCard.value = Value.DrawTwo then
        let next := Game.nextIndex g.current g.direction g.players.length
        match g.drawFor next 2 with
        | Except.error e => Except.error e
        | Except.ok g => Except.ok (Outcome.next g)
      else Except.ok (Outcome.next g)

/-- Line 204: the index moves one step in the direction. -/
def Game.advance (self : Game) : Game :=
  { self with current := Game.nextIndex self.current self.direction self.players.length }

/-- One iteration of the loop of `Game::start` (lines 168-204). -/
def Game.turn (self : Game) (inp : HumanInput) : Except Undefined Outcome :=
  match Game.playerAt self.players self.current with
  | Except.error e => Except.error e
  | Except.ok player =>
    let choice := player.playTurn self.topCard inp
    if choice = -1 then
      match player.drawCard self.deck with
      | Except.error e => Except.error e
      | Except.ok (player, deck) =>
        Except.ok (Outcome.next
          { self with deck := deck,
                      players := self.players.set self.current.toNat player }.advance)
    else
      match Game.cardAt player.hand choice with
      | Except.error e => Except.error e
      | Except.ok card =>
        let player := { player with hand := player.hand.eraseIdx choice.toNat }
        let g := { self with topCard := card,
                             players := self.players.set self.current.toNat player }
        match g.wildEffect inp with
        | Except.error e => Except.error e
        | Except.ok g =>
          match g.effects with
          | Except.error e => Except.error e
          | Except.ok (Outcome.wins winner g) => Except.ok (Outcome.wins winner g)
          | Except.ok (Outcome.next g) => Except.ok (Outcome.next g.advance)

/-- The loop of `Game::start` (lines 167-205) run on the inputs of its first
iterations, one `HumanInput` for each iteration: the state before the next
iteration, or the state at the `break`. -/
def Game.run (self : Game) : List HumanInput → Except Undefined Outcome
  | [] => Except.ok (Outcome.next self)
  | inp :: rest =>
    match self.turn inp with
    | Except.error e => Except.error e
    | Except.ok (Outcome.wins winner g) => Except.ok (Outcome.wins winner g)
    | Except.ok (Outcome.next g) => Game.run g rest

/-- The method `Game::start` (lines 165-206) on the inputs of its first
iterations. -/
def Game.start (self : Game) (inps : List HumanInput) : Except Undefined Outcome :=
  Game.run { self with current := 0 } inps

/-! ## Invariants and example states -/

/-- A card that has no color of its own is a DrawFour or a ColorChange. -/
def Card.NoneOnlyIfWild (c : Card) : Prop :=
  c.color = Color.None → c.value = Value.DrawFour ∨ c.value = Value.ColorChange

/-- Every card of the deck and of the hands that has no color of its own is a
DrawFour or a ColorChange. -/
def Game.CardsWellFormed (g : Game) : Prop :=
  (∀ c ∈ g.deck.cards, c.NoneOnlyIfWild) ∧ ∀ p ∈ g.players, ∀ c ∈ p.hand, c.NoneOnlyIfWild

/-- A color is one of the four that a card can be matched on. -/
def Color.Concrete (c : Color) : Prop :=
  c = Color.Red ∨ c = Color.Pink ∨ c = Color.Purple ∨ c = Color.Yellow

/-- A deck of six cards; the last one is the top. -/
def Examples.deck : Deck :=
  { cards := [Card.mk Color.Red Value.One, Card.mk Color.Pink Value.Two,
      Card.mk Color.Purple Value.Three, Card.mk Color.Yellow Value.Four,
      Card.mk Color.Red Value.Five, Card.mk Color.Pink Value.Six] }

/-- A game in progress with the three players of `setup`: it is the turn of
AI-1, whose hand is `hand`, and the active card is a red Two. -/
def Examples.game (hand : List Card) (direction : Int) : Game :=
  { deck := Examples.deck,
    players := [Player.mk "You" PlayerKind.Human
        [Card.mk Color.Red Value.Seven, Card.mk Color.Pink Value.Eight],
      Player.mk "AI-1" PlayerKind.AI hand,
      Player.mk "AI-2" PlayerKind.AI [Card.mk Color.Purple Value.Nine]],
    topCard := Card.mk Color.Red Value.Two,
    direction := direction,
    current := 1 }

/-- A game in progress with the three players of `setup` in which it is the
turn of the interactive player, who holds a ColorChange and a red Seven; the
active card is a red Two. -/
def Examples.humanWild : Game :=
  { deck := Examples.deck,
    players := [Player.mk "You" PlayerKind.Human
        [Card.mk Color.None Value.ColorChange, Card.mk Color.Red Value.Seven],
      Player.mk "AI-1" PlayerKind.AI [Card.mk Color.Pink Value.One],
      Player.mk "AI-2" PlayerKind.AI [Card.mk Color.Purple Value.Nine]],
    topCard := Card.mk Color.Red Value.Two,
    direction := 1,
    current := 0 }

/-- An order of the 90 cards in which the sixteenth card from the top is a
ColorChange: the cards of `initialize` rotated by 15 places. -/
def Examples.wildSixteenth : Deck :=
  { cards := ( Deck.initialize { cards := [] }).cards.rotate 15 }

/-- An order of the 90 cards on which the deck runs out: the cards of
`initialize` rotated by 76 places, then reversed. -/
def Examples.exhausting : Deck :=
  { cards := (( Deck.initialize { cards := [] }).cards.rotate 76).reverse }

/-! ## Shuffle (lines 33, 55-59) -/

/-- The exchange of the elements at two positions of the vector, the
`iter_swap` that `std::shuffle` performs. -/
def Deck.swapAt (cards : List Card) (i j : Nat) : List Card :=
  match cards[i]?, cards[j]? with
  | some a, some b => (cards.set i b).set j a
  | _, _ => cards

/-- The loop of `std::shuffle(first, last, g)` as the C++ library reference
gives it, from position `i` down to position 1: the element at `i` is
exchanged with the one at a position drawn uniformly from `0, ..., i`.  The
algorithm is the standard library's, not the repository's; `rnd i` stands for
the number the generator `g` yields at step `i`, reduced to the range by the
distribution. -/
def Deck.shuffleLoop (rnd : Nat → Nat) : Nat → List Card → List Card
  | 0, cards => cards
  | i + 1, cards =>
    Deck.shuffleLoop rnd i (Deck.swapAt cards (i + 1) (rnd (i + 1) % (i + 2)))

/-- The method `Deck::shuffle` (lines 55-59): `std::shuffle` over the whole
vector with a generator seeded from `random_device`; `rnd` is the outcome of
that random source. -/
def Deck.shuffle (self : Deck) (rnd : Nat → Nat) : Deck :=
  { cards := Deck.shuffleLoop rnd (self.cards.length - 1) self.cards }

/-- The constructor `Deck()` (line 33): `initialize()` then `shuffle()` on the
vector that starts empty. -/
def Deck.new (rnd : Nat → Nat) : Deck :=
  ( Deck.initialize { cards := [] }).shuffle rnd

/-- The cast `(int)value`. -/
def Value.toNat : Value → Nat
  | .One => 0
  | .Two => 1
  | .Three => 2
  | .Four => 3
  | .Five => 4
  | .Six => 5
  | .Seven => 6
  | .Eight => 7
  | .Nine => 8
  | .Reverse => 9
  | .DrawTwo => 10
  | .Block => 11
  | .DrawFour => 12
  | .ColorChange => 13

/-- The order in which a deck is sorted to compare its contents: by color, then
by value, both in enumeration order. -/
def Card.sortKey (c : Card) : Nat :=
  c.color.toNat * 14 + c.value.toNat

/-- The deck sorted by `sortKey`. -/
def Deck.sorted (self : Deck) : List Card :=
  self.cards.insertionSort (fun a b => a.sortKey ≤ b.sortKey)

/-! ## Console input of the interactive player (lines 93-125) -/

/-- What stands on the standard input, as `cin >> int` tells it apart: the
text of an integer, text that does not start an integer, and the end of a
line. -/
inductive Token where
  | num (n : Int)
  | malformed
  | newline
  deriving DecidableEq

/-- The extraction `cin >> x` for an `int x`: white space, so also the ends of
lines, is skipped; an integer that fits an `int` is consumed and returned; on
other text, on an integer outside the `int` range and at the end of the input
the extraction fails.  The result is the value, if any, and the input left. -/
def Console.readInt : List Token → Option Int × List Token
  | [] => (none, [])
  | Token.newline :: rest => Console.readInt rest
  | Token.num n :: rest =>
    if -(2 : Int) ^ 31 ≤ n ∧ n < (2 : Int) ^ 31 then (some n, rest) else (none, rest)
  | Token.malformed :: rest => (none, Token.malformed :: rest)

/-- The statements `cin.clear(); cin.ignore(max, '\n')` (lines 100-101 and
119-120): the input up to and including the next end of line is dropped. -/
def Console.ignoreLine : List Token → List Token
  | [] => []
  | Token.newline :: rest => rest
  | _ :: rest => Console.ignoreLine rest

/-- The method `HumanPlayer::playTurn` (lines 93-113) run for at most `fuel`
iterations of its `while(true)` loop on the input `stdin`: the value returned
and the input left, or `none` when the loop has not returned by then.  The
method writes neither to the hand nor to the active card. -/
def HumanPlayer.playTurn (hand : List Card) (topCard : Card) :
    Nat → List Token → Option (Int × List Token)
  | 0, _ => none
  | fuel + 1, stdin =>
    match Console.readInt stdin with
    | (none, rest) => HumanPlayer.playTurn hand topCard fuel (Console.ignoreLine rest)
    | (some choice, rest) =>
      if choice = 0 then some (-1, rest)
      else if choice < 1 ∨ choice > (hand.length : Int) then
        HumanPlayer.playTurn hand topCard fuel rest
      else
        match Game.cardAt hand (choice - 1) with
        | Except.ok c =>
          if c.canPlayOn topCard then some (choice - 1, rest)
          else HumanPlayer.playTurn hand topCard fuel rest
        | Except.error _ => none

/-- The method `HumanPlayer::chooseColor` (lines 115-125) with at most `fuel`
nested calls on the input `stdin`: the color returned and the input left, or
`none` when no call has returned by then.  The color is
`static_cast<Color>(c)`, which is `none` for an integer that no enumerator
has. -/
def HumanPlayer.chooseColor : Nat → List Token → Option (Option Color × List Token)
  | 0, _ => none
  | fuel + 1, stdin =>
    match Console.readInt stdin with
    | (none, rest) => HumanPlayer.chooseColor fuel (Console.ignoreLine rest)
    | (some c, rest) =>
      if c < 0 ∨ c > 5 then HumanPlayer.chooseColor fuel (Console.ignoreLine rest)
      else some (Color.ofNat? c.toNat, rest)

/-- What the user types on one line at a prompt: an integer or other text. -/
inductive Entry where
  | int (n : Int)
  | malformed
  deriving DecidableEq

/-- The standard input made of one entry on each line. -/
def Console.lines : List Entry → List Token
  | [] => []
  | Entry.int n :: rest => Token.num n :: Token.newline :: Console.lines rest
  | Entry.malformed :: rest => Token.malformed :: Token.newline :: Console.lines rest

/-- An integer entry that ends `playTurn`: 0, or the number of a card of the
hand that can be played on the active card. -/
def HumanPlayer.Accepts (hand : List Card) (topCard : Card) (k : Int) : Prop :=
  k = 0 ∨ (1 ≤ k ∧ k ≤ (hand.length : Int)
    ∧ ∃ c, hand[(k - 1).toNat]? = some c ∧ c.canPlayOn topCard = true)

/-- An entry that `playTurn` answers with a new prompt: other text, or an
integer that is not accepted. -/
def HumanPlayer.Rejects (hand : List Card) (topCard : Card) : Entry → Prop
  | Entry.malformed => True
  | Entry.int k => ¬ HumanPlayer.Accepts hand topCard k

/-! ## Turn order -/

/-- The turn order of a game of `n` players is sound: the direction is `+1` or
`-1` and the index is inside the deque of `n` players. -/
def Game.TurnOrderOk (n : Nat) (g : Game) : Prop :=
  (g.direction = 1 ∨ g.direction = -1) ∧ 0 ≤ g.current ∧ g.current < n
    ∧ g.players.length = n

/-! ## Card and deck: theorems -/

/-- C1: a card can be played on a reference card exactly when the colors are
equal, or the values are equal, or the card is a DrawFour, or the card is a
ColorChange; a DrawFour or ColorChange can be played on every card. -/
theorem Card.canPlayOn_iff (c r : Card) :
    (c.canPlayOn r = true ↔
      (c.color = r.color ∨ c.value = r.value ∨ c.value = Value.DrawFour
        ∨ c.value = Value.ColorChange))
    ∧ (c.value = Value.DrawFour ∨ c.value = Value.ColorChange →
        c.canPlayOn r = true) := by
  have key : c.canPlayOn r = true ↔
      (c.color = r.color ∨ c.value = r.value ∨ c.value = Value.DrawFour
        ∨ c.value = Value.ColorChange) := by
    simp [Card.canPlayOn, or_assoc]
  exact ⟨key, fun h => key.mpr (Or.inr (Or.inr h))⟩

/-- C2: whatever the deck held before, `initialize` leaves exactly 90 cards:
for each of the four colors two copies of every numeric value and one Reverse,
one DrawTwo and one Block; 4 DrawFour and 2 ColorChange cards, all six with
color None; and no other card. -/
theorem Deck.initialize_composition (d : Deck) :
    d.initialize.cards.length = 90
    ∧ (∀ c ∈ [Color.Red, Color.Pink, Color.Purple, Color.Yellow],
        (∀ v ∈ [Value.One, Value.Two, Value.Three, Value.Four, Value.Five, Value.Six,
                Value.Seven, Value.Eight, Value.Nine],
          d.initialize.cards.count (Card.mk c v) = 2)
        ∧ d.initialize.cards.countP (fun x => x.color = c) = 21
        ∧ d.initialize.cards.count (Card.mk c Value.Reverse) = 1
        ∧ d.initialize.cards.count (Card.mk c Value.DrawTwo) = 1
        ∧ d.initialize.cards.count (Card.mk c Value.Block) = 1)
    ∧ d.initialize.cards.countP (fun x => x.value ∈
        [Value.One, Value.Two, Value.Three, Value.Four, Value.Five, Value.Six,
          Value.Seven, Value.Eight, Value.Nine]) = 72
    ∧ d.initialize.cards.countP (fun x => x.value ∈
        [Value.Reverse, Value.DrawTwo, Value.Block]) = 12
    ∧ d.initialize.cards.countP (fun x => x.value = Value.DrawFour) = 4
    ∧ d.initialize.cards.countP (fun x => x.value = Value.ColorChange) = 2
    ∧ d.initialize.cards.countP (fun x => x.color = Color.None) = 6
    ∧ (∀ x ∈ d.initialize.cards, x.color = Color.None ↔
        (x.value = Value.DrawFour ∨ x.value = Value.ColorChange)) := by
  have h : d.initialize = Deck.initialize { cards := [] } := rfl
  rw [h]
  decide

/-- C4: on a deck that is not empty, `draw` returns the last card and leaves
the cards before it, in their order: the deck is one card shorter. -/
theorem Deck.draw_nonempty (d : Deck) (h : d.cards ≠ []) :
    ∃ c rest, d.cards = rest ++ [c]
      ∧ d.draw = Except.ok (c, { cards := rest })
      ∧ d.cards.getLast h = c
      ∧ rest.length + 1 = d.cards.length
      ∧ ∀ i, i < rest.length → rest[i]? = d.cards[i]? := by
  refine ⟨d.cards.getLast h, d.cards.dropLast, ?_, ?_, rfl, ?_, ?_⟩
  · exact (List.dropLast_append_getLast h).symm
  · simp [Deck.draw, List.getLast?_eq_getLast _ h]
  · have := congrArg List.length (List.dropLast_append_getLast h)
    simpa using this
  · intro i hi
    have e := List.dropLast_append_getLast h
    conv_rhs => rw [← e]
    rw [List.getElem?_append_left hi]

/-- C4, at a deck of three cards. -/
theorem Deck.draw_nonempty_witness :
    ∃ c rest,
      [Card.mk Color.Red Value.One, Card.mk Color.Pink Value.Two,
        Card.mk Color.None Value.DrawFour] = rest ++ [c]
      ∧ Deck.draw { cards := [Card.mk Color.Red Value.One, Card.mk Color.Pink Value.Two,
          Card.mk Color.None Value.DrawFour] } = Except.ok (c, { cards := rest })
      ∧ List.getLast [Card.mk Color.Red Value.One, Card.mk Color.Pink Value.Two,
          Card.mk Color.None Value.DrawFour] (by decide) = c
      ∧ rest.length + 1 = 3
      ∧ ∀ i, i < rest.length → rest[i]? =
          [Card.mk Color.Red Value.One, Card.mk Color.Pink Value.Two,
            Card.mk Color.None Value.DrawFour][i]? :=
  Deck.draw_nonempty
    { cards := [Card.mk Color.Red Value.One, Card.mk Color.Pink Value.Two,
        Card.mk Color.None Value.DrawFour] } (by decide)

/-- C5: on the empty deck `draw` reaches `cards.back()` with nothing that tests
for emptiness: the call is undefined, no failure is raised or returned, and
`Player::drawCard` has no defined result either.  A game reaches that call: on
the order `Examples.exhausting` of the 90 cards, with an interactive player who
always asks to draw, the deck is empty after 94 iterations and the 95th draws
from it. -/
theorem Deck.draw_empty_undefined :
    Deck.draw { cards := [] } = Except.error Undefined.backOfEmpty
    ∧ Deck.empty { cards := [] } = true
    ∧ (∀ p : Player, p.drawCard { cards := [] } = Except.error Undefined.backOfEmpty)
    ∧ Examples.exhausting.cards.Perm ( Deck.initialize { cards := [] }).cards
    ∧ ∃ g g94, (Game.new Examples.exhausting).setup = Except.ok g
        ∧ g.start (List.replicate 94 (HumanInput.mk (-1) Color.Red))
            = Except.ok (Outcome.next g94)
        ∧ g94.deck.cards = []
        ∧ g.start (List.replicate 95 (HumanInput.mk (-1) Color.Red))
            = Except.error Undefined.backOfEmpty := by
  refine ⟨rfl, rfl, fun p => rfl, ?_, _, _, rfl, rfl, rfl, rfl⟩
  exact (List.reverse_perm _).trans (List.rotate_perm _ _)

/-- The scan from index `i`: either it answers -1 and no card of `rest` can be
played, or it answers `i + k` for the first position `k` of `rest` whose card
can be played. -/
theorem AIPlayer.scan_first (topCard : Card) (rest : List Card) (i : Nat) :
    (AIPlayer.scan topCard rest i = -1 ∧ ∀ c ∈ rest, c.canPlayOn topCard = false)
    ∨ ∃ k c, rest[k]? = some c ∧ c.canPlayOn topCard = true
        ∧ AIPlayer.scan topCard rest i = ((i + k : Nat) : Int)
        ∧ ∀ j c', j < k → rest[j]? = some c' → c'.canPlayOn topCard = false := by
  induction rest generalizing i with
  | nil => exact Or.inl ⟨rfl, by simp⟩
  | cons a rest ih =>
    by_cases ha : a.canPlayOn topCard = true
    · refine Or.inr ⟨0, a, by simp, ha, ?_, ?_⟩
      · simp [AIPlayer.scan, ha]
      · intro j c' hj
        omega
    · have ha' : a.canPlayOn topCard = false := by simpa using ha
      rcases ih (i + 1) with ⟨h1, h2⟩ | ⟨k, c, hk, hc, hs, hmin⟩
      · refine Or.inl ⟨?_, ?_⟩
        · simp [AIPlayer.scan, ha', h1]
        · intro c hc
          rcases List.mem_cons.mp hc with rfl | hc
          · exact ha'
          · exact h2 c hc
      · refine Or.inr ⟨k + 1, c, by simpa using hk, hc, ?_, ?_⟩
        · simp only [AIPlayer.scan, ha', Bool.false_eq_true, if_false, hs]
          congr 1
          omega
        · intro j c' hj hjc
          cases j with
          | zero =>
            have : a = c' := by simpa using hjc
            exact this ▸ ha'
          | succ j => exact hmin j c' (by omega) (by simpa using hjc)

/-- C3: the automated player's `playTurn` returns the smallest index whose card
can be played on the active card when there is one, and -1 exactly when no
card of the hand can be played; what it returns is -1 or an index inside the
hand whose card can be played. -/
theorem AIPlayer.playTurn_first (hand : List Card) (topCard : Card) :
    ((∃ c ∈ hand, c.canPlayOn topCard = true) →
      ∃ (i : Nat) (c : Card), AIPlayer.playTurn hand topCard = (i : Int) ∧ i < hand.length
        ∧ hand[i]? = some c ∧ c.canPlayOn topCard = true
        ∧ ∀ (j : Nat) (c' : Card), j < i → hand[j]? = some c' →
            c'.canPlayOn topCard = false)
    ∧ (AIPlayer.playTurn hand topCard = -1 ↔ ∀ c ∈ hand, c.canPlayOn topCard = false)
    ∧ (AIPlayer.playTurn hand topCard = -1
        ∨ ∃ (i : Nat) (c : Card), AIPlayer.playTurn hand topCard = (i : Int)
            ∧ i < hand.length ∧ hand[i]? = some c ∧ c.canPlayOn topCard = true) := by
  have key := AIPlayer.scan_first topCard hand 0
  have bound : ∀ (k : Nat) (c : Card), hand[k]? = some c → k < hand.length := by
    intro k c hk
    by_contra hlt
    rw [List.getElem?_eq_none (by omega)] at hk
    exact Option.noConfusion hk
  refine ⟨?_, ?_, ?_⟩
  · rintro ⟨c, hc, hplay⟩
    rcases key with ⟨_, hnone⟩ | ⟨k, c', hk, hc', hs, hmin⟩
    · rw [hnone c hc] at hplay
      exact Bool.noConfusion hplay
    · exact ⟨k, c', by simpa [AIPlayer.playTurn] using hs, bound k c' hk, hk, hc', hmin⟩
  · constructor
    · intro h
      rcases key with ⟨_, hnone⟩ | ⟨k, c', hk, hc', hs, hmin⟩
      · exact hnone
      · rw [AIPlayer.playTurn, hs] at h
        omega
    · intro h
      rcases key with ⟨h1, _⟩ | ⟨k, c', hk, hc', hs, hmin⟩
      · exact h1
      · have hm : c' ∈ hand := List.mem_iff_getElem?.mpr ⟨k, hk⟩
        rw [h c' hm] at hc'
        exact Bool.noConfusion hc'
  · rcases key with ⟨h1, _⟩ | ⟨k, c', hk, hc', hs, hmin⟩
    · exact Or.inl h1
    · exact Or.inr ⟨k, c', by simpa [AIPlayer.playTurn] using hs, bound k c' hk, hk, hc'⟩

/-! ## The turn loop: auxiliary facts -/

/-- The index expression of the loop is the mathematical `(c + d) mod n` for an
index `c` inside the deque and a direction of `+1` or `-1`, the wrap-around of
the unsigned sum included. -/
theorem Game.nextIndex_eq (c d : Int) (n : Nat) (hc0 : 0 ≤ c) (hcn : c < n)
    (hd : d = 1 ∨ d = -1) (hn : n < 2 ^ 31) :
    Game.nextIndex c d n = (c + d) % (n : Int) := by
  unfold Game.nextIndex
  have h64 : (2 : Int) ^ 64 = 18446744073709551616 := by norm_num
  rw [h64]
  have hn' : (n : Int) < 2147483648 := by exact_mod_cast hn
  have key : ((c + d) % 18446744073709551616 + (n : Int)) % 18446744073709551616
      = c + d + n := by
    rcases hd with rfl | rfl <;> omega
  rw [key, Int.add_emod_self]

/-- The index expression stays inside the deque. -/
theorem Game.nextIndex_range (c d : Int) (n : Nat) (hn0 : 0 < n) :
    0 ≤ Game.nextIndex c d n ∧ Game.nextIndex c d n < n := by
  unfold Game.nextIndex
  have hpos : (0 : Int) < (n : Int) := by exact_mod_cast hn0
  exact ⟨Int.emod_nonneg _ (ne_of_gt hpos), Int.emod_lt_of_pos _ hpos⟩

/-- Reading `players[i]` is defined exactly for an index inside the deque. -/
theorem Game.playerAt_eq_ok (players : List Player) (i : Int) (p : Player) :
    Game.playerAt players i = Except.ok p ↔ 0 ≤ i ∧ players[i.toNat]? = some p := by
  unfold Game.playerAt
  by_cases h : 0 ≤ i
  · rw [if_pos h]
    cases hp : players[i.toNat]? with
    | none => simp
    | some q => simp [h]
  · simp [h]

/-- An index at which `players[i]` is defined is inside the deque. -/
theorem Game.playerAt_bound {players : List Player} {i : Int} {p : Player}
    (h : Game.playerAt players i = Except.ok p) :
    0 ≤ i ∧ i < players.length ∧ i.toNat < players.length := by
  obtain ⟨h0, hp⟩ := (Game.playerAt_eq_ok players i p).mp h
  have hlt : i.toNat < players.length := by
    by_contra hge
    rw [List.getElem?_eq_none (by omega)] at hp
    exact Option.noConfusion hp
  refine ⟨h0, ?_, hlt⟩
  omega

/-- After the object behind `players[i]` was changed, `players[i]` reads the
changed object. -/
theorem Game.playerAt_set_self {players : List Player} {i : Int} {p : Player}
    (h : Game.playerAt players i = Except.ok p) (q : Player) :
    Game.playerAt (players.set i.toNat q) i = Except.ok q := by
  obtain ⟨h0, _, hlt⟩ := Game.playerAt_bound h
  rw [Game.playerAt_eq_ok]
  exact ⟨h0, by simp [List.getElem?_set_self, hlt]⟩

/-- Reading `hand[i]` at a natural index. -/
theorem Game.cardAt_natCast (hand : List Card) (i : Nat) (c : Card)
    (h : hand[i]? = some c) : Game.cardAt hand (i : Int) = Except.ok c := by
  simp [Game.cardAt, h]

/-- A natural index is not the draw signal. -/
theorem Game.natCast_ne_draw (i : Nat) : ((i : Int) = -1) = False := by
  apply eq_false
  omega

/-- The game an outcome carries. -/
theorem Outcome.game_next (g : Game) : (Outcome.next g).game = g := rfl

/-- The game an outcome carries. -/
theorem Outcome.game_wins (w : Int) (g : Game) : (Outcome.wins w g).game = g := rfl

/-- With at least `k` cards in the deck, `k` draws append the last `k` cards of
the deck to the hand, the last card first, and leave the deck without them. -/
theorem Player.drawLoop_ok (k : Nat) (hand : List Card) (deck : Deck)
    (hk : k ≤ deck.cards.length) :
    Player.drawLoop k hand deck = Except.ok
      (hand ++ deck.cards.reverse.take k,
        { cards := deck.cards.take (deck.cards.length - k) }) := by
  induction k generalizing hand deck with
  | zero => simp [Player.drawLoop]
  | succ k ih =>
    have hne : deck.cards ≠ [] := by
      intro h
      rw [h] at hk
      simp at hk
    have hsplit := List.dropLast_append_getLast hne
    have hlen : deck.cards.dropLast.length = deck.cards.length - 1 := by simp
    have hdraw : deck.draw = Except.ok (deck.cards.getLast hne, { cards := deck.cards.dropLast }) := by
      simp [Deck.draw, List.getLast?_eq_getLast _ hne]
    have hrev : deck.cards.reverse = deck.cards.getLast hne :: deck.cards.dropLast.reverse := by
      conv_lhs => rw [← hsplit]
      simp
    simp only [Player.drawLoop, hdraw]
    have hk' : k ≤ deck.cards.length - 1 := by omega
    rw [ih _ { cards := deck.cards.dropLast } (by simpa using hk')]
    simp only [hrev, List.take_succ_cons, List.append_assoc, List.singleton_append]
    congr 2
    simp only [List.dropLast_eq_take, List.take_take, List.length_take]
    refine congrArg (fun n => Deck.mk (List.take n deck.cards)) ?_
    omega

/-- The statement `players[next]->drawCard(deck, count)` with enough cards in the
deck and `next` inside the deque. -/
theorem Game.drawFor_ok (g : Game) (next count : Int) (p : Player)
    (hp : Game.playerAt g.players next = Except.ok p)
    (hk : count.toNat ≤ g.deck.cards.length) :
    g.drawFor next count = Except.ok
      { g with
        deck := { cards := g.deck.cards.take (g.deck.cards.length - count.toNat) },
        players := g.players.set next.toNat
          { p with hand := p.hand ++ g.deck.cards.reverse.take count.toNat } } := by
  simp [Game.drawFor, hp, Player.drawCard, Player.drawLoop_ok _ _ _ hk]

/-- A draw by some player changes neither the direction, the index, the active
card nor the number of players. -/
theorem Game.drawFor_fields {g g' : Game} {next count : Int}
    (h : g.drawFor next count = Except.ok g') :
    g'.direction = g.direction ∧ g'.current = g.current ∧ g'.topCard = g.topCard
      ∧ g'.players.length = g.players.length := by
  unfold Game.drawFor at h
  split at h
  · exact Except.noConfusion h
  · split at h
    · exact Except.noConfusion h
    · injection h with h
      subst h
      simp

/-- The array `colors` has a name for every color but None. -/
theorem Game.colorName_ok (c : Color) (h : c ≠ Color.None) :
    ∃ name, Game.colorName c = Except.ok name := by
  cases c <;> first
    | exact absurd rfl h
    | exact ⟨_, rfl⟩

/-- The read of a name for `Color::None` is outside the array `colors`. -/
theorem Game.colorName_None :
    Game.colorName Color.None = Except.error Undefined.indexOutOfRange := rfl

/-- A color whose name was read from the array `colors` is not None. -/
theorem Game.colorName_ne_None {c : Color} {name : String}
    (h : Game.colorName c = Except.ok name) : c ≠ Color.None := by
  intro hc
  rw [hc, Game.colorName_None] at h
  exact Except.noConfusion h

/-- The resolution of a wild card is undefined when its player chooses None:
the read of line 183 is outside the array `colors`. -/
theorem Game.wildEffect_None_undefined (g : Game) (inp : HumanInput) (p : Player)
    (hp : Game.playerAt g.players g.current = Except.ok p)
    (hw : g.topCard.value = Value.DrawFour ∨ g.topCard.value = Value.ColorChange)
    (hc : p.chooseColor inp = Color.None) :
    g.wildEffect inp = Except.error Undefined.indexOutOfRange := by
  unfold Game.wildEffect
  rw [if_pos hw, hp]
  simp only [hc, Game.colorName_None]

/-- The interactive player plays a ColorChange and answers 4, the value of
`Color::None`, to the color prompt: the iteration is undefined. -/
theorem Game.turn_wild_None_undefined :
    Game.turn Examples.humanWild (HumanInput.mk 0 Color.None)
      = Except.error Undefined.indexOutOfRange := rfl

/-- The same play with the answer 1, Pink: the active card is a pink ColorChange
and AI-1 is next. -/
theorem Game.turn_wild_Pink_defined :
    Game.turn Examples.humanWild (HumanInput.mk 0 Color.Pink)
      = Except.ok (Outcome.next
        { deck := Examples.deck,
          players := [Player.mk "You" PlayerKind.Human [Card.mk Color.Red Value.Seven],
            Player.mk "AI-1" PlayerKind.AI [Card.mk Color.Pink Value.One],
            Player.mk "AI-2" PlayerKind.AI [Card.mk Color.Purple Value.Nine]],
          topCard := Card.mk Color.Pink Value.ColorChange,
          direction := 1,
          current := 1 }) := rfl

/-- The resolution of a wild card changes neither the direction, the index, the
active card's value nor the number of players. -/
theorem Game.wildEffect_fields {g g' : Game} {inp : HumanInput}
    (h : g.wildEffect inp = Except.ok g') :
    g'.direction = g.direction ∧ g'.current = g.current
      ∧ g'.topCard.value = g.topCard.value
      ∧ g'.players.length = g.players.length := by
  unfold Game.wildEffect at h
  by_cases hw : g.topCard.value = Value.DrawFour ∨ g.topCard.value = Value.ColorChange
  · rw [if_pos hw] at h
    cases hp : Game.playerAt g.players g.current with
    | error e =>
      rw [hp] at h
      exact Except.noConfusion h
    | ok p =>
      rw [hp] at h
      cases hcn : Game.colorName (p.chooseColor inp) with
      | error e =>
        simp only [hcn] at h
        exact Except.noConfusion h
      | ok name =>
        simp only [hcn] at h
        by_cases h4 : g.topCard.value = Value.DrawFour
        · simp only [h4, if_true] at h
          obtain ⟨h1, h2, h3, h5⟩ := Game.drawFor_fields h
          exact ⟨h1, h2, by rw [h3, h4], h5⟩
        · simp only [h4, if_false] at h
          injection h with h
          subst h
          simp
  · rw [if_neg hw] at h
    injection h with h
    subst h
    simp

/-- Only a Reverse changes the direction in lines 191-202. -/
theorem Game.effects_direction {g : Game} {o : Outcome}
    (h : g.effects = Except.ok o) (hv : g.topCard.value ≠ Value.Reverse) :
    o.game.direction = g.direction := by
  unfold Game.effects at h
  cases hp : Game.playerAt g.players g.current with
  | error e =>
    rw [hp] at h
    exact Except.noConfusion h
  | ok p =>
    rw [hp] at h
    by_cases he : p.hand.isEmpty = true
    · simp only [he, if_true] at h
      injection h with h
      subst h
      rfl
    · cases hdf : g.drawFor (Game.nextIndex g.current g.direction g.players.length) 2 with
      | error e =>
        cases hval : g.topCard.value <;> simp [he, hval, hdf] at h <;> first
          | exact absurd hval hv
          | (subst h; rfl)
      | ok g2 =>
        have hg2 := (Game.drawFor_fields hdf).1
        cases hval : g.topCard.value <;> simp [he, hval, hdf] at h <;> first
          | exact absurd hval hv
          | (subst h; rfl)
          | (subst h; exact hg2)

/-- An iteration in which the current player plays the card at index `i`:
the card leaves the hand and becomes the active card, then lines 179-204 run. -/
theorem Game.turn_play (g : Game) (inp : HumanInput) (P : Player) (i : Nat) (card : Card)
    (hP : Game.playerAt g.players g.current = Except.ok P)
    (hchoice : P.playTurn g.topCard inp = (i : Int))
    (hcard : P.hand[i]? = some card) :
    g.turn inp =
      match Game.wildEffect
          { g with topCard := card,
                   players := g.players.set g.current.toNat
                     { P with hand := P.hand.eraseIdx i } } inp with
      | Except.error e => Except.error e
      | Except.ok g2 =>
        match g2.effects with
        | Except.error e => Except.error e
        | Except.ok (Outcome.wins winner g3) => Except.ok (Outcome.wins winner g3)
        | Except.ok (Outcome.next g3) => Except.ok (Outcome.next g3.advance) := by
  simp [Game.turn, hP, hchoice, Game.natCast_ne_draw, Game.cardAt_natCast _ _ _ hcard]

/-- One step from an index inside a deque of at least two players leads to
another index. -/
theorem Game.nextIndex_ne (c d : Int) (n : Nat) (hc0 : 0 ≤ c) (hcn : c < n)
    (hd : d = 1 ∨ d = -1) (hn : n < 2 ^ 31) (h2 : 2 ≤ n) :
    Game.nextIndex c d n ≠ c := by
  rw [Game.nextIndex_eq c d n hc0 hcn hd hn]
  intro h
  have hn2 : (2 : Int) ≤ (n : Int) := by exact_mod_cast h2
  have hc : c % (n : Int) = c := Int.emod_eq_of_lt hc0 hcn
  have hz : (c + d - c) % (n : Int) = 0 := by
    apply Int.emod_eq_emod_iff_emod_sub_eq_zero.mp
    rw [h, hc]
  have hdvd : (n : Int) ∣ d := by
    have : c + d - c = d := by ring
    rw [this] at hz
    exact Int.dvd_of_emod_eq_zero hz
  rcases hd with rfl | rfl
  · have := Int.le_of_dvd (by norm_num) hdvd
    omega
  · have h1 : (n : Int) ∣ 1 := by
      have := (Int.dvd_neg).mpr hdvd
      simpa using this
    have := Int.le_of_dvd (by norm_num) h1
    omega

/-- Reading `players[i]` is defined for every index inside the deque. -/
theorem Game.playerAt_of_range (players : List Player) (i : Int)
    (h0 : 0 ≤ i) (hlt : i < players.length) :
    ∃ p, Game.playerAt players i = Except.ok p := by
  have hl : i.toNat < players.length := by omega
  exact ⟨players[i.toNat], (Game.playerAt_eq_ok players i _).mpr
    ⟨h0, List.getElem?_eq_getElem hl⟩⟩

/-- Changing the object behind another index leaves `players[i]` as it was. -/
theorem Game.playerAt_set_ne {players : List Player} {i j : Int} {p : Player}
    (h : Game.playerAt players i = Except.ok p) (hj : 0 ≤ j) (hne : j ≠ i) (q : Player) :
    Game.playerAt (players.set j.toNat q) i = Except.ok p := by
  obtain ⟨h0, hp⟩ := (Game.playerAt_eq_ok players i p).mp h
  rw [Game.playerAt_eq_ok]
  refine ⟨h0, ?_⟩
  rw [List.getElem?_set_ne (by omega)]
  exact hp

/-- The iteration in which the current player plays a DrawFour that is the last
card of the hand and chooses a color other than None, in a game of at least two
players with at least 4 cards in the deck: the following player draws 4 cards,
then the current player wins. -/
theorem Game.turn_last_drawFour (g : Game) (inp : HumanInput) (P Q : Player) (i : Nat)
    (card : Card)
    (hP : Game.playerAt g.players g.current = Except.ok P)
    (hchoice : P.playTurn g.topCard inp = (i : Int))
    (hcard : P.hand[i]? = some card)
    (hrest : P.hand.eraseIdx i = [])
    (hfour : card.value = Value.DrawFour)
    (hd : g.direction = 1 ∨ g.direction = -1)
    (h2 : 2 ≤ g.players.length) (hn : g.players.length < 2 ^ 31)
    (h4 : 4 ≤ g.deck.cards.length)
    (hQ : Game.playerAt g.players
      (Game.nextIndex g.current g.direction g.players.length) = Except.ok Q)
    (hcolor : Player.chooseColor { P with hand := [] } inp ≠ Color.None) :
    g.turn inp = Except.ok (Outcome.wins g.current
      { deck := { cards := g.deck.cards.take (g.deck.cards.length - 4) },
        players := (g.players.set g.current.toNat { P with hand := [] }).set
          (Game.nextIndex g.current g.direction g.players.length).toNat
          { Q with hand := Q.hand ++ g.deck.cards.reverse.take 4 },
        topCard := Card.mk (Player.chooseColor { P with hand := [] } inp) Value.DrawFour,
        direction := g.direction,
        current := g.current }) := by
  obtain ⟨hc0, hcn, hlt⟩ := Game.playerAt_bound hP
  obtain ⟨hq0, _, _⟩ := Game.playerAt_bound hQ
  have hne := Game.nextIndex_ne g.current g.direction g.players.length hc0 hcn hd hn h2
  have hset := Game.playerAt_set_self hP { P with hand := [] }
  have hQ' := Game.playerAt_set_ne hQ hc0 (Ne.symm hne) { P with hand := [] }
  have hset' := Game.playerAt_set_ne hset hq0 hne
    { Q with hand := Q.hand ++ g.deck.cards.reverse.take 4 }
  have h4' : (4 : Int).toNat ≤ g.deck.cards.length := h4
  obtain ⟨name, hname⟩ := Game.colorName_ok _ hcolor
  rw [Game.turn_play g inp P i card hP hchoice hcard, hrest]
  have hw : Game.wildEffect
      { g with topCard := card,
               players := g.players.set g.current.toNat { P with hand := [] } } inp
      = Except.ok
        { deck := { cards := g.deck.cards.take (g.deck.cards.length - 4) },
          players := (g.players.set g.current.toNat { P with hand := [] }).set
            (Game.nextIndex g.current g.direction g.players.length).toNat
            { Q with hand := Q.hand ++ g.deck.cards.reverse.take 4 },
          topCard := Card.mk (Player.chooseColor { P with hand := [] } inp) Value.DrawFour,
          direction := g.direction,
          current := g.current } := by
    simp only [Game.wildEffect, hfour, true_or, if_true, hset, List.length_set, hname]
    rw [Game.drawFor_ok _ _ 4 Q (by simpa using hQ') (by simpa using h4')]
    simp [hfour]
  rw [hw]
  simp [Game.effects, hset']

/-- Lines 179-189 have a defined result when the color chosen for a wild card is
not None and the deck holds the 4 cards a DrawFour makes the following player
draw. -/
theorem Game.wildEffect_defined (g : Game) (inp : HumanInput) (p : Player)
    (hp : Game.playerAt g.players g.current = Except.ok p)
    (h4 : g.topCard.value = Value.DrawFour → 4 ≤ g.deck.cards.length)
    (hcolor : g.topCard.value = Value.DrawFour ∨ g.topCard.value = Value.ColorChange →
      p.chooseColor inp ≠ Color.None) :
    ∃ g2, g.wildEffect inp = Except.ok g2
      ∧ (g.topCard.value ≠ Value.DrawFour → g2.deck = g.deck) := by
  obtain ⟨hc0, hcn, hlt⟩ := Game.playerAt_bound hp
  by_cases hv : g.topCard.value = Value.DrawFour
  · obtain ⟨name, hname⟩ := Game.colorName_ok _ (hcolor (Or.inl hv))
    have hr := Game.nextIndex_range g.current g.direction g.players.length (by omega)
    obtain ⟨Q, hQ⟩ := Game.playerAt_of_range g.players _ hr.1 hr.2
    have hk : (4 : Int).toNat ≤ g.deck.cards.length := h4 hv
    have hdf := Game.drawFor_ok
      { g with topCard := { g.topCard with color := p.chooseColor inp } }
      (Game.nextIndex g.current g.direction g.players.length) 4 Q hQ hk
    have hw : g.wildEffect inp = Game.drawFor
        { g with topCard := { g.topCard with color := p.chooseColor inp } }
        (Game.nextIndex g.current g.direction g.players.length) 4 := by
      simp [Game.wildEffect, hv, hp, hname]
    exact ⟨_, hw.trans hdf, fun h => absurd hv h⟩
  · by_cases hc : g.topCard.value = Value.ColorChange
    · obtain ⟨name, hname⟩ := Game.colorName_ok _ (hcolor (Or.inr hc))
      have hw : g.wildEffect inp = Except.ok
          { g with topCard := { g.topCard with color := p.chooseColor inp } } := by
        simp [Game.wildEffect, hc, hp, hname]
      exact ⟨_, hw, fun _ => rfl⟩
    · have hw : g.wildEffect inp = Except.ok g := by
        simp [Game.wildEffect, hc, hv]
      exact ⟨_, hw, fun _ => rfl⟩

/-- Lines 191-202 have a defined result when the deck holds the 2 cards a
DrawTwo makes the following player draw. -/
theorem Game.effects_defined (g : Game) (p : Player)
    (hp : Game.playerAt g.players g.current = Except.ok p)
    (h2 : g.topCard.value = Value.DrawTwo → 2 ≤ g.deck.cards.length) :
    ∃ o, g.effects = Except.ok o := by
  obtain ⟨hc0, hcn, hlt⟩ := Game.playerAt_bound hp
  by_cases he : p.hand.isEmpty = true
  · simp [Game.effects, hp, he]
  · by_cases hv : g.topCard.value = Value.DrawTwo
    · have hr := Game.nextIndex_range g.current g.direction g.players.length (by omega)
      obtain ⟨Q, hQ⟩ := Game.playerAt_of_range g.players _ hr.1 hr.2
      have hk : (2 : Int).toNat ≤ g.deck.cards.length := h2 hv
      have hdf := Game.drawFor_ok g _ 2 Q hQ hk
      simp [Game.effects, hp, he, hv, hdf]
    · cases hval : g.topCard.value <;> first
        | exact absurd hval hv
        | simp [Game.effects, hp, he, hval]

/-- An iteration in which a card of the hand is played has a defined result
when the deck holds the cards a DrawTwo or DrawFour makes the following player
draw and the color chosen for a wild card is not None. -/
theorem Game.turn_defined (g : Game) (inp : HumanInput) (P : Player) (i : Nat) (card : Card)
    (hP : Game.playerAt g.players g.current = Except.ok P)
    (hchoice : P.playTurn g.topCard inp = (i : Int))
    (hcard : P.hand[i]? = some card)
    (h4 : card.value = Value.DrawFour → 4 ≤ g.deck.cards.length)
    (h2 : card.value = Value.DrawTwo → 2 ≤ g.deck.cards.length)
    (hcolor : card.value = Value.DrawFour ∨ card.value = Value.ColorChange →
      Player.chooseColor { P with hand := P.hand.eraseIdx i } inp ≠ Color.None) :
    ∃ o, g.turn inp = Except.ok o := by
  obtain ⟨hc0, hcn, hlt⟩ := Game.playerAt_bound hP
  have hset := Game.playerAt_set_self hP { P with hand := P.hand.eraseIdx i }
  rw [Game.turn_play g inp P i card hP hchoice hcard]
  obtain ⟨g2, hw, hdeck⟩ := Game.wildEffect_defined
    { g with topCard := card,
             players := g.players.set g.current.toNat { P with hand := P.hand.eraseIdx i } }
    inp _ hset h4 hcolor
  obtain ⟨f1, f2, f3, f4⟩ := Game.wildEffect_fields hw
  obtain ⟨p2, hp2⟩ := Game.playerAt_of_range g2.players g2.current
    (by rw [f2]; exact hc0) (by rw [f2, f4]; simpa using hcn)
  obtain ⟨o, ho⟩ := Game.effects_defined g2 p2 hp2 (by
    intro hv
    have hv' : card.value = Value.DrawTwo := by rw [← hv, f3]
    have hne : card.value ≠ Value.DrawFour := by rw [hv']; decide
    rw [hdeck hne]
    exact h2 hv')
  rw [hw]
  cases o with
  | next g3 => simp [ho]
  | wins w g3 => simp [ho]

/-- A card other than a Reverse leaves the direction as it was, however the
iteration ends. -/
theorem Game.turn_play_direction (g : Game) (inp : HumanInput) (P : Player) (i : Nat)
    (card : Card)
    (hP : Game.playerAt g.players g.current = Except.ok P)
    (hchoice : P.playTurn g.topCard inp = (i : Int))
    (hcard : P.hand[i]? = some card)
    (hv : card.value ≠ Value.Reverse) (o : Outcome) (h : g.turn inp = Except.ok o) :
    o.game.direction = g.direction := by
  rw [Game.turn_play g inp P i card hP hchoice hcard] at h
  cases hw : Game.wildEffect
    { g with topCard := card,
             players := g.players.set g.current.toNat { P with hand := P.hand.eraseIdx i } }
    inp with
  | error e =>
    rw [hw] at h
    exact Except.noConfusion h
  | ok g2 =>
    rw [hw] at h
    simp only at h
    obtain ⟨f1, f2, f3, f4⟩ := Game.wildEffect_fields hw
    cases he : g2.effects with
    | error e =>
      rw [he] at h
      exact Except.noConfusion h
    | ok o2 =>
      rw [he] at h
      have hdir := Game.effects_direction he (by rw [f3]; exact hv)
      cases o2 with
      | next g3 =>
        simp only at h
        injection h with h
        subst h
        rw [Outcome.game_next] at hdir ⊢
        show g3.direction = g.direction
        rw [hdir, f1]
      | wins w g3 =>
        simp only at h
        injection h with h
        subst h
        rw [Outcome.game_wins] at hdir ⊢
        rw [hdir, f1]

/-! ## Well-formed cards: auxiliary facts -/

/-- The automated player's `chooseColor` returns one of the four colors. -/
theorem AIPlayer.chooseColor_concrete (hand : List Card) :
    (AIPlayer.chooseColor hand).Concrete := by
  unfold AIPlayer.chooseColor Color.Concrete
  generalize (List.foldl _ [0, 0, 0, 0] hand) = counts
  simp only [List.foldl]
  split_ifs <;> simp [Color.ofNat?]

/-- A concrete color is not None. -/
theorem Color.Concrete.ne_None {c : Color} (h : c.Concrete) : c ≠ Color.None := by
  rcases h with h | h | h | h <;> rw [h] <;> decide

/-- A color other than None is concrete. -/
theorem Color.concrete_of_ne_None {c : Color} (h : c ≠ Color.None) : c.Concrete := by
  unfold Color.Concrete
  cases c <;> simp at h ⊢

/-- The cards that `initialize` builds: None is the color of the wild cards only. -/
theorem Deck.initialize_wellFormed (d : Deck) :
    ∀ c ∈ d.initialize.cards, c.NoneOnlyIfWild := by
  have h : d.initialize = Deck.initialize { cards := [] } := rfl
  rw [h]
  unfold Card.NoneOnlyIfWild
  decide

/-- What `draw` returns comes from the deck, and so does what it leaves. -/
theorem Deck.draw_mem {d d' : Deck} {c : Card} (h : d.draw = Except.ok (c, d')) :
    c ∈ d.cards ∧ ∀ x ∈ d'.cards, x ∈ d.cards := by
  unfold Deck.draw at h
  cases hl : d.cards.getLast? with
  | none =>
    rw [hl] at h
    exact Except.noConfusion h
  | some a =>
    rw [hl] at h
    injection h with h
    injection h with h1 h2
    subst h1
    subst h2
    exact ⟨List.mem_of_getLast?_eq_some hl, fun x hx => List.dropLast_subset _ hx⟩

/-- The draw loop keeps a property that all cards of the hand and of the deck
have. -/
theorem Player.drawLoop_forall (Q : Card → Prop) (k : Nat) (hand : List Card) (deck : Deck)
    (hand' : List Card) (deck' : Deck)
    (h : Player.drawLoop k hand deck = Except.ok (hand', deck'))
    (hh : ∀ c ∈ hand, Q c) (hd : ∀ c ∈ deck.cards, Q c) :
    (∀ c ∈ hand', Q c) ∧ ∀ c ∈ deck'.cards, Q c := by
  induction k generalizing hand deck with
  | zero =>
    simp only [Player.drawLoop] at h
    injection h with h
    injection h with h1 h2
    subst h1
    subst h2
    exact ⟨hh, hd⟩
  | succ k ih =>
    simp only [Player.drawLoop] at h
    cases hdraw : deck.draw with
    | error e =>
      rw [hdraw] at h
      exact Except.noConfusion h
    | ok r =>
      obtain ⟨c, d1⟩ := r
      rw [hdraw] at h
      obtain ⟨hc, hsub⟩ := Deck.draw_mem hdraw
      refine ih (hand ++ [c]) d1 h ?_ (fun x hx => hd x (hsub x hx))
      intro x hx
      rcases List.mem_append.mp hx with hx | hx
      · exact hh x hx
      · rw [List.mem_singleton.mp hx]
        exact hd c hc

/-- Drawing keeps a property that all cards of the hand and of the deck have. -/
theorem Player.drawCard_forall (Q : Card → Prop) (p p' : Player) (deck deck' : Deck)
    (count : Int) (h : p.drawCard deck count = Except.ok (p', deck'))
    (hh : ∀ c ∈ p.hand, Q c) (hd : ∀ c ∈ deck.cards, Q c) :
    (∀ c ∈ p'.hand, Q c) ∧ ∀ c ∈ deck'.cards, Q c := by
  unfold Player.drawCard at h
  cases hl : Player.drawLoop count.toNat p.hand deck with
  | error e =>
    rw [hl] at h
    exact Except.noConfusion h
  | ok r =>
    obtain ⟨hand', d1⟩ := r
    rw [hl] at h
    injection h with h
    injection h with h1 h2
    subst h1
    subst h2
    exact Player.drawLoop_forall Q _ _ _ _ _ hl hh hd

/-- The dealing loop of `setup` keeps a property that all cards have. -/
theorem Game.dealLoop_forall (Q : Card → Prop) (players players' : List Player)
    (deck deck' : Deck)
    (h : Game.dealLoop players deck = Except.ok (players', deck'))
    (hp : ∀ p ∈ players, ∀ c ∈ p.hand, Q c) (hd : ∀ c ∈ deck.cards, Q c) :
    (∀ p ∈ players', ∀ c ∈ p.hand, Q c) ∧ ∀ c ∈ deck'.cards, Q c := by
  induction players generalizing players' deck with
  | nil =>
    simp only [Game.dealLoop] at h
    injection h with h
    injection h with h1 h2
    subst h1
    subst h2
    exact ⟨by simp, hd⟩
  | cons p rest ih =>
    simp only [Game.dealLoop] at h
    cases h1 : p.drawCard deck 5 with
    | error e =>
      rw [h1] at h
      exact Except.noConfusion h
    | ok r =>
      obtain ⟨p1, d1⟩ := r
      rw [h1] at h
      simp only at h
      obtain ⟨hp1, hd1⟩ := Player.drawCard_forall Q p p1 deck d1 5 h1
        (hp p (List.mem_cons_self _ _)) hd
      cases h2 : Game.dealLoop rest d1 with
      | error e =>
        rw [h2] at h
        exact Except.noConfusion h
      | ok r2 =>
        obtain ⟨rest2, d2⟩ := r2
        rw [h2] at h
        simp only at h
        injection h with h
        injection h with h3 h4
        subst h3
        subst h4
        obtain ⟨hr, hd2⟩ := ih rest2 d1 h2
          (fun q hq => hp q (List.mem_cons_of_mem _ hq)) hd1
        refine ⟨?_, hd2⟩
        intro q hq
        rcases List.mem_cons.mp hq with rfl | hq
        · exact hp1
        · exact hr q hq

/-- After `setup` on a deck whose None-colored cards are wild cards, the same
holds of the deck, of the hands and of the active card. -/
theorem Game.setup_wellFormed (deck : Deck) (g0 : Game)
    (hd : ∀ c ∈ deck.cards, c.NoneOnlyIfWild)
    (h : (Game.new deck).setup = Except.ok g0) :
    g0.CardsWellFormed ∧ g0.topCard.NoneOnlyIfWild := by
  unfold Game.setup at h
  simp only [Game.new, List.nil_append] at h
  cases h1 : Game.dealLoop
      [Player.mk "You" PlayerKind.Human [], Player.mk "AI-1" PlayerKind.AI [],
        Player.mk "AI-2" PlayerKind.AI []] deck with
  | error e =>
    rw [h1] at h
    exact Except.noConfusion h
  | ok r =>
    obtain ⟨ps, d1⟩ := r
    rw [h1] at h
    simp only at h
    obtain ⟨hps, hd1⟩ := Game.dealLoop_forall Card.NoneOnlyIfWild _ ps deck d1 h1
      (by
        intro p hp c hc
        simp only [List.mem_cons, List.mem_singleton, List.not_mem_nil, or_false] at hp
        rcases hp with rfl | rfl | rfl <;> simp at hc) hd
    cases h2 : d1.draw with
    | error e =>
      rw [h2] at h
      exact Except.noConfusion h
    | ok r2 =>
      obtain ⟨c, d2⟩ := r2
      rw [h2] at h
      simp only at h
      injection h with h
      subst h
      obtain ⟨hc, hsub⟩ := Deck.draw_mem h2
      exact ⟨⟨fun x hx => hd1 x (hsub x hx), hps⟩, hd1 c hc⟩

/-- A draw by some player keeps the cards well formed. -/
theorem Game.drawFor_wellFormed {g g' : Game} {next count : Int}
    (h : g.drawFor next count = Except.ok g') (hg : g.CardsWellFormed) :
    g'.CardsWellFormed := by
  unfold Game.drawFor at h
  cases hp : Game.playerAt g.players next with
  | error e =>
    rw [hp] at h
    exact Except.noConfusion h
  | ok p =>
    rw [hp] at h
    simp only at h
    obtain ⟨_, hget⟩ := (Game.playerAt_eq_ok _ _ _).mp hp
    have hmem : p ∈ g.players := List.mem_iff_getElem?.mpr ⟨_, hget⟩
    cases hdc : p.drawCard g.deck count with
    | error e =>
      rw [hdc] at h
      exact Except.noConfusion h
    | ok r =>
      obtain ⟨p1, d1⟩ := r
      rw [hdc] at h
      simp only at h
      injection h with h
      subst h
      obtain ⟨hp1, hd1⟩ := Player.drawCard_forall Card.NoneOnlyIfWild p p1 g.deck d1 count hdc
        (hg.2 p hmem) hg.1
      refine ⟨hd1, ?_⟩
      intro q hq
      rcases List.mem_or_eq_of_mem_set hq with hq | rfl
      · exact hg.2 q hq
      · exact hp1

/-- The color a player chooses is not None when the interactive player's
answer is not None. -/
theorem Player.chooseColor_ne_None (p : Player) (inp : HumanInput)
    (h : inp.color ≠ Color.None) : p.chooseColor inp ≠ Color.None := by
  unfold Player.chooseColor
  cases p.kind with
  | Human => exact h
  | AI => exact (AIPlayer.chooseColor_concrete p.hand).ne_None

/-- Lines 179-189 keep the cards well formed and leave an active card with a
color, when the card just played is well formed and the color chosen for a
wild card is not None. -/
theorem Game.wildEffect_inv {g g' : Game} {inp : HumanInput}
    (h : g.wildEffect inp = Except.ok g') (hg : g.CardsWellFormed)
    (ht : g.topCard.NoneOnlyIfWild) (hi : inp.color ≠ Color.None) :
    g'.CardsWellFormed ∧ g'.topCard.color ≠ Color.None := by
  unfold Game.wildEffect at h
  by_cases hw : g.topCard.value = Value.DrawFour ∨ g.topCard.value = Value.ColorChange
  · rw [if_pos hw] at h
    cases hp : Game.playerAt g.players g.current with
    | error e =>
      rw [hp] at h
      exact Except.noConfusion h
    | ok p =>
      rw [hp] at h
      have hcol := Player.chooseColor_ne_None p inp hi
      obtain ⟨name, hname⟩ := Game.colorName_ok _ hcol
      by_cases h4 : g.topCard.value = Value.DrawFour
      · simp only [h4, if_true, hname] at h
        obtain ⟨_, _, h3, _⟩ := Game.drawFor_fields h
        refine ⟨Game.drawFor_wellFormed h hg, ?_⟩
        rw [h3]
        exact hcol
      · simp only [h4, if_false, hname] at h
        injection h with h
        subst h
        exact ⟨hg, hcol⟩
  · rw [if_neg hw] at h
    injection h with h
    subst h
    exact ⟨hg, fun hc => hw (ht hc)⟩

/-- Lines 191-202 keep the cards well formed and do not touch the active card. -/
theorem Game.effects_inv {g : Game} {o : Outcome}
    (h : g.effects = Except.ok o) (hg : g.CardsWellFormed) :
    o.game.CardsWellFormed ∧ o.game.topCard = g.topCard := by
  unfold Game.effects at h
  cases hp : Game.playerAt g.players g.current with
  | error e =>
    rw [hp] at h
    exact Except.noConfusion h
  | ok p =>
    rw [hp] at h
    by_cases he : p.hand.isEmpty = true
    · simp only [he, if_true] at h
      injection h with h
      subst h
      exact ⟨hg, rfl⟩
    · cases hdf : g.drawFor (Game.nextIndex g.current g.direction g.players.length) 2 with
      | error e =>
        cases hval : g.topCard.value <;> simp [he, hval, hdf] at h <;>
          (subst h; exact ⟨hg, rfl⟩)
      | ok g2 =>
        have hg2 := Game.drawFor_wellFormed hdf hg
        have ht2 := (Game.drawFor_fields hdf).2.2.1
        cases hval : g.topCard.value <;> simp [he, hval, hdf] at h <;> first
          | (subst h; exact ⟨hg, rfl⟩)
          | (subst h; exact ⟨hg2, ht2⟩)

/-- One iteration keeps the cards well formed and the active card colored, when
the interactive player's color answer is not None. -/
theorem Game.turn_inv {g : Game} {inp : HumanInput} {o : Outcome}
    (h : g.turn inp = Except.ok o) (hg : g.CardsWellFormed)
    (ht : g.topCard.color ≠ Color.None) (hi : inp.color ≠ Color.None) :
    o.game.CardsWellFormed ∧ o.game.topCard.color ≠ Color.None := by
  unfold Game.turn at h
  cases hp : Game.playerAt g.players g.current with
  | error e =>
    rw [hp] at h
    exact Except.noConfusion h
  | ok p =>
    rw [hp] at h
    simp only at h
    obtain ⟨_, hget⟩ := (Game.playerAt_eq_ok _ _ _).mp hp
    have hmem : p ∈ g.players := List.mem_iff_getElem?.mpr ⟨_, hget⟩
    by_cases hc : p.playTurn g.topCard inp = -1
    · rw [if_pos hc] at h
      cases hdc : p.drawCard g.deck with
      | error e =>
        rw [hdc] at h
        exact Except.noConfusion h
      | ok r =>
        obtain ⟨p1, d1⟩ := r
        rw [hdc] at h
        simp only at h
        injection h with h
        subst h
        obtain ⟨hp1, hd1⟩ := Player.drawCard_forall Card.NoneOnlyIfWild p p1 g.deck d1 1 hdc
          (hg.2 p hmem) hg.1
        refine ⟨⟨hd1, ?_⟩, ht⟩
        intro q hq
        rcases List.mem_or_eq_of_mem_set hq with hq | rfl
        · exact hg.2 q hq
        · exact hp1
    · rw [if_neg hc] at h
      cases hca : Game.cardAt p.hand (p.playTurn g.topCard inp) with
      | error e =>
        rw [hca] at h
        exact Except.noConfusion h
      | ok card =>
        rw [hca] at h
        simp only at h
        have hcard : card ∈ p.hand := by
          unfold Game.cardAt at hca
          split_ifs at hca
          cases hx : p.hand[(p.playTurn g.topCard inp).toNat]? with
          | none =>
            rw [hx] at hca
            exact Except.noConfusion hca
          | some c =>
            rw [hx] at hca
            injection hca with hca
            subst hca
            exact List.mem_iff_getElem?.mpr ⟨_, hx⟩
        have hg1 : Game.CardsWellFormed
            { g with topCard := card,
                     players := g.players.set g.current.toNat
                       { p with hand := p.hand.eraseIdx (p.playTurn g.topCard inp).toNat } } := by
          refine ⟨hg.1, ?_⟩
          intro q hq
          rcases List.mem_or_eq_of_mem_set hq with hq | rfl
          · exact hg.2 q hq
          · intro c hc'
            exact hg.2 p hmem c (List.mem_of_mem_eraseIdx hc')
        cases hw : Game.wildEffect
            { g with topCard := card,
                     players := g.players.set g.current.toNat
                       { p with hand := p.hand.eraseIdx (p.playTurn g.topCard inp).toNat } }
            inp with
        | error e =>
          rw [hw] at h
          exact Except.noConfusion h
        | ok g2 =>
          rw [hw] at h
          simp only at h
          obtain ⟨hg2, ht2⟩ := Game.wildEffect_inv hw hg1 (hg.2 p hmem card hcard) hi
          cases he : g2.effects with
          | error e =>
            rw [he] at h
            exact Except.noConfusion h
          | ok o2 =>
            rw [he] at h
            obtain ⟨hg3, ht3⟩ := Game.effects_inv he hg2
            cases o2 with
            | next g3 =>
              simp only at h
              injection h with h
              subst h
              rw [Outcome.game_next] at hg3 ht3 ⊢
              exact ⟨hg3, by show g3.topCard.color ≠ Color.None; rw [ht3]; exact ht2⟩
            | wins w g3 =>
              simp only at h
              injection h with h
              subst h
              rw [Outcome.game_wins] at hg3 ht3 ⊢
              exact ⟨hg3, by rw [ht3]; exact ht2⟩

/-- The loop keeps the cards well formed and the active card colored, when none
of the interactive player's color answers is None. -/
theorem Game.run_inv (inps : List HumanInput) (g : Game) (o : Outcome)
    (h : g.run inps = Except.ok o) (hg : g.CardsWellFormed)
    (ht : g.topCard.color ≠ Color.None) (hi : ∀ inp ∈ inps, inp.color ≠ Color.None) :
    o.game.CardsWellFormed ∧ o.game.topCard.color ≠ Color.None := by
  induction inps generalizing g with
  | nil =>
    simp only [Game.run] at h
    injection h with h
    subst h
    exact ⟨hg, ht⟩
  | cons inp rest ih =>
    simp only [Game.run] at h
    cases hturn : g.turn inp with
    | error e =>
      rw [hturn] at h
      exact Except.noConfusion h
    | ok o1 =>
      rw [hturn] at h
      obtain ⟨hg1, ht1⟩ := Game.turn_inv hturn hg ht (hi inp (List.mem_cons_self _ _))
      cases o1 with
      | next g1 =>
        simp only at h
        exact ih g1 h hg1 ht1 (fun x hx => hi x (List.mem_cons_of_mem _ hx))
      | wins w g1 =>
        simp only at h
        injection h with h
        subst h
        exact ⟨hg1, ht1⟩

/-! ## The turn loop: theorems -/

/-- C6 fails as stated: on the order `Examples.wildSixteenth` of the 90 cards,
the card that `setup` draws as the active card is a ColorChange with color
None, and it is still the active card after the first iteration of the loop,
in which the interactive player draws. -/
theorem Game.setup_topCard_None :
    Examples.wildSixteenth.cards.Perm ( Deck.initialize { cards := [] }).cards
    ∧ ∃ g g1, (Game.new Examples.wildSixteenth).setup = Except.ok g
        ∧ g.topCard = Card.mk Color.None Value.ColorChange
        ∧ g.start [HumanInput.mk (-1) Color.Red] = Except.ok (Outcome.next g1)
        ∧ g1.topCard.color = Color.None :=
  ⟨List.rotate_perm ( Deck.initialize { cards := [] }).cards 15, _, _, rfl, rfl, rfl, rfl⟩

/-- C6 as the code has it: from a setup on any order of the 90 cards in which
the card drawn as the active card has a color, in every state the loop reaches
while every color the interactive player answers is one of the four, the
active card's color is Red, Pink, Purple or Yellow. -/
theorem Game.topCard_color_concrete (deck : Deck) (g0 : Game) (inps : List HumanInput)
    (o : Outcome)
    (hperm : deck.cards.Perm ( Deck.initialize { cards := [] }).cards)
    (hsetup : (Game.new deck).setup = Except.ok g0)
    (htop : g0.topCard.color ≠ Color.None)
    (hinp : ∀ inp ∈ inps, inp.color ≠ Color.None)
    (hrun : g0.start inps = Except.ok o) :
    o.game.topCard.color = Color.Red ∨ o.game.topCard.color = Color.Pink
      ∨ o.game.topCard.color = Color.Purple ∨ o.game.topCard.color = Color.Yellow := by
  have hdeck : ∀ c ∈ deck.cards, c.NoneOnlyIfWild := fun c hc =>
    Deck.initialize_wellFormed { cards := [] } c (hperm.subset hc)
  obtain ⟨hg0, _⟩ := Game.setup_wellFormed deck g0 hdeck hsetup
  have hg : Game.CardsWellFormed { g0 with current := 0 } := hg0
  exact Color.concrete_of_ne_None (Game.run_inv inps _ o hrun hg htop hinp).2

/-- C6 as the code has it, at the order in which `initialize` leaves the cards:
the active card after `setup` is a yellow Six, and after three iterations in
which the interactive player draws the active card has one of the four colors. -/
theorem Game.topCard_color_concrete_witness :
    ∃ g0 o, (Game.new ( Deck.initialize { cards := [] })).setup = Except.ok g0
      ∧ g0.topCard = Card.mk Color.Yellow Value.Six
      ∧ g0.start [HumanInput.mk (-1) Color.Red, HumanInput.mk (-1) Color.Red,
          HumanInput.mk (-1) Color.Red] = Except.ok o
      ∧ (o.game.topCard.color = Color.Red ∨ o.game.topCard.color = Color.Pink
          ∨ o.game.topCard.color = Color.Purple ∨ o.game.topCard.color = Color.Yellow) :=
  ⟨_, _, rfl, rfl, rfl,
    Game.topCard_color_concrete ( Deck.initialize { cards := [] }) _
      [HumanInput.mk (-1) Color.Red, HumanInput.mk (-1) Color.Red,
        HumanInput.mk (-1) Color.Red] _
      (List.Perm.refl _) rfl (by decide) (by decide) rfl⟩

/-- C7: when the current player plays the last card of the hand, the iteration
ends the loop with that player as the winner; the direction is not flipped,
the index is not advanced, and nobody draws for a DrawTwo.  For a DrawFour the
iteration is defined when the deck holds the 4 cards of its draw and there are
at least two players.  For a wild card (DrawFour or ColorChange) the color the
player chooses is one of the four of line 182, not None, for which the array
read of line 183 is undefined. -/
theorem Game.turn_last_card_wins (g : Game) (inp : HumanInput) (P : Player) (i : Nat)
    (card : Card)
    (hP : Game.playerAt g.players g.current = Except.ok P)
    (hchoice : P.playTurn g.topCard inp = (i : Int))
    (hcard : P.hand[i]? = some card)
    (hrest : P.hand.eraseIdx i = [])
    (hfour : card.value = Value.DrawFour →
      (g.direction = 1 ∨ g.direction = -1) ∧ 2 ≤ g.players.length
        ∧ g.players.length < 2 ^ 31 ∧ 4 ≤ g.deck.cards.length)
    (hcolor : card.value = Value.DrawFour ∨ card.value = Value.ColorChange →
      Player.chooseColor { P with hand := [] } inp ≠ Color.None) :
    ∃ g', g.turn inp = Except.ok (Outcome.wins g.current g')
      ∧ Game.playerAt g'.players g.current = Except.ok { P with hand := [] }
      ∧ g'.direction = g.direction
      ∧ g'.current = g.current
      ∧ g'.topCard.value = card.value
      ∧ (card.value ≠ Value.DrawFour →
          g'.deck = g.deck
          ∧ g'.players = g.players.set g.current.toNat { P with hand := [] }) := by
  obtain ⟨hc0, hcn, hlt⟩ := Game.playerAt_bound hP
  have hset := Game.playerAt_set_self hP { P with hand := [] }
  by_cases h4 : card.value = Value.DrawFour
  · obtain ⟨hd, h2, hn, hdeck⟩ := hfour h4
    have hr := Game.nextIndex_range g.current g.direction g.players.length (by omega)
    obtain ⟨Q, hQ⟩ := Game.playerAt_of_range g.players _ hr.1 hr.2
    have hne := Game.nextIndex_ne g.current g.direction g.players.length hc0 hcn hd hn h2
    refine ⟨_, Game.turn_last_drawFour g inp P Q i card hP hchoice hcard hrest h4 hd h2 hn
      hdeck hQ (hcolor (Or.inl h4)), ?_, rfl, rfl, h4.symm, fun h => absurd h4 h⟩
    exact Game.playerAt_set_ne hset hr.1 hne _
  · rw [Game.turn_play g inp P i card hP hchoice hcard, hrest]
    by_cases hc : card.value = Value.ColorChange
    · obtain ⟨name, hname⟩ := Game.colorName_ok _ (hcolor (Or.inr hc))
      refine ⟨
        { deck := g.deck,
          players := g.players.set g.current.toNat { P with hand := [] },
          topCard := Card.mk (Player.chooseColor { P with hand := [] } inp) card.value,
          direction := g.direction,
          current := g.current },
        ?_, hset, rfl, rfl, rfl, fun _ => ⟨rfl, rfl⟩⟩
      simp [Game.wildEffect, hc, hset, Game.effects, hname]
    · refine ⟨
        { deck := g.deck,
          players := g.players.set g.current.toNat { P with hand := [] },
          topCard := card,
          direction := g.direction,
          current := g.current },
        ?_, hset, rfl, rfl, rfl, fun _ => ⟨rfl, rfl⟩⟩
      simp [Game.wildEffect, h4, hc, hset, Game.effects]

/-- C7, at a game of three players where AI-1 plays its only card, a red
Reverse, on a red Two: AI-1 wins, the direction stays 1, the index stays 1 and
nobody draws. -/
theorem Game.turn_last_card_wins_witness :
    ∃ g', Game.turn (Examples.game [Card.mk Color.Red Value.Reverse] 1)
          (HumanInput.mk (-1) Color.Red) = Except.ok (Outcome.wins 1 g')
      ∧ g'.direction = 1 ∧ g'.current = 1 ∧ g'.deck = Examples.deck
      ∧ g'.players = [Player.mk "You" PlayerKind.Human
            [Card.mk Color.Red Value.Seven, Card.mk Color.Pink Value.Eight],
          Player.mk "AI-1" PlayerKind.AI [],
          Player.mk "AI-2" PlayerKind.AI [Card.mk Color.Purple Value.Nine]] :=
  (Game.turn_last_card_wins (Examples.game [Card.mk Color.Red Value.Reverse] 1)
    (HumanInput.mk (-1) Color.Red)
    (Player.mk "AI-1" PlayerKind.AI [Card.mk Color.Red Value.Reverse])
    0 (Card.mk Color.Red Value.Reverse) rfl rfl rfl rfl
    (fun h => absurd h (by decide)) (fun _ => by decide)).elim
    fun g' h => ⟨g', h.1, h.2.2.1, h.2.2.2.1, (h.2.2.2.2.2 (by decide)).1,
      (h.2.2.2.2.2 (by decide)).2⟩

/-- C8 fails as stated: AI-1 plays its only card, a DrawFour, with direction 1.
AI-1 wins, but AI-2, the player that follows, has drawn 4 cards by then: its
hand went from 1 card to 5 and the deck from 6 cards to 2. -/
theorem Game.turn_last_drawFour_next_player_draws :
    ∃ g', Game.turn (Examples.game [Card.mk Color.None Value.DrawFour] 1)
          (HumanInput.mk (-1) Color.Red) = Except.ok (Outcome.wins 1 g')
      ∧ Game.playerAt (Examples.game [Card.mk Color.None Value.DrawFour] 1).players 2
          = Except.ok (Player.mk "AI-2" PlayerKind.AI [Card.mk Color.Purple Value.Nine])
      ∧ Game.playerAt g'.players 2
          = Except.ok (Player.mk "AI-2" PlayerKind.AI
              [Card.mk Color.Purple Value.Nine, Card.mk Color.Pink Value.Six,
                Card.mk Color.Red Value.Five, Card.mk Color.Yellow Value.Four,
                Card.mk Color.Purple Value.Three])
      ∧ (Examples.game [Card.mk Color.None Value.DrawFour] 1).deck.cards.length = 6
      ∧ g'.deck.cards = [Card.mk Color.Red Value.One, Card.mk Color.Pink Value.Two] :=
  ⟨_, rfl, rfl, rfl, rfl, rfl⟩

/-- C8, as the code has it: when the current player plays a DrawFour that is the
last card of the hand and chooses one of the four colors of line 182 (not None,
for which the array read of line 183 is undefined), with at least two players
and at least 4 cards in the deck, the player following in the direction first
draws the 4 top cards of the deck, and then the current player is declared
winner; the index and the direction are not changed. -/
theorem Game.turn_last_drawFour_draws_then_wins (g : Game) (inp : HumanInput) (P : Player)
    (i : Nat) (card : Card)
    (hP : Game.playerAt g.players g.current = Except.ok P)
    (hchoice : P.playTurn g.topCard inp = (i : Int))
    (hcard : P.hand[i]? = some card)
    (hrest : P.hand.eraseIdx i = [])
    (hfour : card.value = Value.DrawFour)
    (hd : g.direction = 1 ∨ g.direction = -1)
    (h2 : 2 ≤ g.players.length) (hn : g.players.length < 2 ^ 31)
    (h4 : 4 ≤ g.deck.cards.length)
    (hcolor : Player.chooseColor { P with hand := [] } inp ≠ Color.None) :
    ∃ Q, Game.playerAt g.players ((g.current + g.direction) % (g.players.length : Int))
        = Except.ok Q
      ∧ (g.current + g.direction) % (g.players.length : Int) ≠ g.current
      ∧ g.turn inp = Except.ok (Outcome.wins g.current
        { deck := { cards := g.deck.cards.take (g.deck.cards.length - 4) },
          players := (g.players.set g.current.toNat { P with hand := [] }).set
            ((g.current + g.direction) % (g.players.length : Int)).toNat
            { Q with hand := Q.hand ++ g.deck.cards.reverse.take 4 },
          topCard := Card.mk (Player.chooseColor { P with hand := [] } inp) Value.DrawFour,
          direction := g.direction,
          current := g.current }) := by
  obtain ⟨hc0, hcn, hlt⟩ := Game.playerAt_bound hP
  have hr := Game.nextIndex_range g.current g.direction g.players.length (by omega)
  obtain ⟨Q, hQ⟩ := Game.playerAt_of_range g.players _ hr.1 hr.2
  have hne := Game.nextIndex_ne g.current g.direction g.players.length hc0 hcn hd hn h2
  have ht := Game.turn_last_drawFour g inp P Q i card hP hchoice hcard hrest hfour hd h2 hn
    h4 hQ hcolor
  rw [Game.nextIndex_eq g.current g.direction g.players.length hc0 hcn hd hn] at hQ hne ht
  exact ⟨Q, hQ, hne, ht⟩

/-- C8 as the code has it, at a game of three players where AI-1 plays its only
card, a DrawFour, with direction -1: the interactive player at index 0 draws
the 4 top cards of the deck and AI-1 wins. -/
theorem Game.turn_last_drawFour_draws_then_wins_witness :
    ∃ Q, Game.playerAt (Examples.game [Card.mk Color.None Value.DrawFour] (-1)).players 0
        = Except.ok Q
      ∧ Game.turn (Examples.game [Card.mk Color.None Value.DrawFour] (-1))
          (HumanInput.mk (-1) Color.Red)
        = Except.ok (Outcome.wins 1
          { deck := { cards := [Card.mk Color.Red Value.One, Card.mk Color.Pink Value.Two] },
            players := [{ Q with hand := Q.hand ++
                [Card.mk Color.Pink Value.Six, Card.mk Color.Red Value.Five,
                  Card.mk Color.Yellow Value.Four, Card.mk Color.Purple Value.Three] },
              Player.mk "AI-1" PlayerKind.AI [],
              Player.mk "AI-2" PlayerKind.AI [Card.mk Color.Purple Value.Nine]],
            topCard := Card.mk Color.Red Value.DrawFour,
            direction := -1,
            current := 1 }) :=
  (Game.turn_last_drawFour_draws_then_wins
    (Examples.game [Card.mk Color.None Value.DrawFour] (-1))
    (HumanInput.mk (-1) Color.Red)
    (Player.mk "AI-1" PlayerKind.AI [Card.mk Color.None Value.DrawFour])
    0 (Card.mk Color.None Value.DrawFour) rfl rfl rfl rfl rfl (Or.inr rfl)
    (by decide) (by decide) (by decide) (by decide)).elim
    fun Q h => ⟨Q, h.1, h.2.2⟩

/-- C9: when the current player plays a Block and keeps at least one card, the
next iteration starts at index `(c + 2 d) mod n`, two steps ahead in the
direction, and the direction is the same. -/
theorem Game.turn_block (g : Game) (inp : HumanInput) (P : Player) (i : Nat) (card : Card)
    (hP : Game.playerAt g.players g.current = Except.ok P)
    (hd : g.direction = 1 ∨ g.direction = -1)
    (hn : g.players.length < 2 ^ 31)
    (hchoice : P.playTurn g.topCard inp = (i : Int))
    (hcard : P.hand[i]? = some card)
    (hblock : card.value = Value.Block)
    (hrest : P.hand.eraseIdx i ≠ []) :
    g.turn inp = Except.ok (Outcome.next
      { deck := g.deck,
        players := g.players.set g.current.toNat { P with hand := P.hand.eraseIdx i },
        topCard := card,
        direction := g.direction,
        current := (g.current + 2 * g.direction) % (g.players.length : Int) }) := by
  obtain ⟨hc0, hcn, hlt⟩ := Game.playerAt_bound hP
  have hn0 : 0 < g.players.length := by omega
  have hset := Game.playerAt_set_self hP { P with hand := P.hand.eraseIdx i }
  have hempty : (P.hand.eraseIdx i).isEmpty = false := by
    cases hh : P.hand.eraseIdx i with
    | nil => exact absurd hh hrest
    | cons a l => rfl
  have h1 := Game.nextIndex_eq g.current g.direction g.players.length hc0 hcn hd hn
  have hr := Game.nextIndex_range g.current g.direction g.players.length hn0
  have h2 := Game.nextIndex_eq _ g.direction g.players.length hr.1 hr.2 hd hn
  have hidx : Game.nextIndex (Game.nextIndex g.current g.direction g.players.length)
      g.direction g.players.length
      = (g.current + 2 * g.direction) % (g.players.length : Int) := by
    rw [h2, h1, Int.emod_add_emod]
    congr 1
    ring
  rw [← hidx]
  simp [Game.turn, hP, hchoice, Game.natCast_ne_draw, Game.cardAt_natCast _ _ _ hcard,
    Game.wildEffect, Game.effects, hblock, hset, hempty, Game.advance]

/-- C9, at a game of three players where AI-1, at index 1 with direction -1,
plays a red Block on a red Two: the next index is 2. -/
theorem Game.turn_block_witness :
    Game.turn
      (Examples.game [Card.mk Color.Red Value.Block, Card.mk Color.Pink Value.One] (-1))
      (HumanInput.mk (-1) Color.Red)
    = Except.ok (Outcome.next
      { deck := Examples.deck,
        players := [Player.mk "You" PlayerKind.Human
            [Card.mk Color.Red Value.Seven, Card.mk Color.Pink Value.Eight],
          Player.mk "AI-1" PlayerKind.AI [Card.mk Color.Pink Value.One],
          Player.mk "AI-2" PlayerKind.AI [Card.mk Color.Purple Value.Nine]],
        topCard := Card.mk Color.Red Value.Block,
        direction := -1,
        current := 2 }) :=
  Game.turn_block
    (Examples.game [Card.mk Color.Red Value.Block, Card.mk Color.Pink Value.One] (-1))
    (HumanInput.mk (-1) Color.Red)
    (Player.mk "AI-1" PlayerKind.AI [Card.mk Color.Red Value.Block, Card.mk Color.Pink Value.One])
    0 (Card.mk Color.Red Value.Block) rfl (Or.inr rfl) (by decide) rfl rfl rfl (by decide)

/-- C10: when the current player plays a Reverse and keeps at least one card,
the direction after the iteration is `-d` and the next iteration starts at
index `(c - d) mod n`; a play of a card that is not a Reverse leaves the
direction equal to `d`, however the iteration ends, and the iteration has a
defined result when the deck holds at least 4 cards and the color chosen for a
wild card (DrawFour or ColorChange) is one of the four of line 182, not None,
for which the array read of line 183 is undefined. -/
theorem Game.turn_reverse (g : Game) (inp : HumanInput) (P : Player) (i : Nat) (card : Card)
    (hP : Game.playerAt g.players g.current = Except.ok P)
    (hd : g.direction = 1 ∨ g.direction = -1)
    (hn : g.players.length < 2 ^ 31)
    (hchoice : P.playTurn g.topCard inp = (i : Int))
    (hcard : P.hand[i]? = some card) :
    (card.value = Value.Reverse → P.hand.eraseIdx i ≠ [] →
      g.turn inp = Except.ok (Outcome.next
        { deck := g.deck,
          players := g.players.set g.current.toNat { P with hand := P.hand.eraseIdx i },
          topCard := card,
          direction := -g.direction,
          current := (g.current - g.direction) % (g.players.length : Int) }))
    ∧ (card.value ≠ Value.Reverse →
        (∀ o, g.turn inp = Except.ok o → o.game.direction = g.direction)
        ∧ (4 ≤ g.deck.cards.length →
            (card.value = Value.DrawFour ∨ card.value = Value.ColorChange →
              Player.chooseColor { P with hand := P.hand.eraseIdx i } inp ≠ Color.None) →
            ∃ o, g.turn inp = Except.ok o)) := by
  obtain ⟨hc0, hcn, hlt⟩ := Game.playerAt_bound hP
  refine ⟨?_, ?_⟩
  · intro hrev hrest
    have hset := Game.playerAt_set_self hP { P with hand := P.hand.eraseIdx i }
    have hempty : (P.hand.eraseIdx i).isEmpty = false := by
      cases hh : P.hand.eraseIdx i with
      | nil => exact absurd hh hrest
      | cons a l => rfl
    have hd' : g.direction * -1 = 1 ∨ g.direction * -1 = -1 := by
      rcases hd with h | h <;> rw [h] <;> simp
    have h1 := Game.nextIndex_eq g.current (g.direction * -1) g.players.length hc0 hcn hd' hn
    have hsub : g.current + g.direction * -1 = g.current - g.direction := by ring
    have hneg : g.direction * -1 = -g.direction := by ring
    rw [hsub] at h1
    rw [← h1, ← hneg]
    simp [Game.turn, hP, hchoice, Game.natCast_ne_draw, Game.cardAt_natCast _ _ _ hcard,
      Game.wildEffect, Game.effects, hrev, hset, hempty, Game.advance]
  · intro hv
    refine ⟨fun o h => Game.turn_play_direction g inp P i card hP hchoice hcard hv o h, ?_⟩
    intro h4 hcolor
    exact Game.turn_defined g inp P i card hP hchoice hcard (fun _ => h4) (fun _ => by omega)
      hcolor

/-- C10, at a game of three players where AI-1, at index 1 with direction 1,
plays a red Reverse on a red Two: the direction becomes -1 and the next index
is 0. -/
theorem Game.turn_reverse_witness :
    Game.turn
      (Examples.game [Card.mk Color.Red Value.Reverse, Card.mk Color.Pink Value.One] 1)
      (HumanInput.mk (-1) Color.Red)
    = Except.ok (Outcome.next
      { deck := Examples.deck,
        players := [Player.mk "You" PlayerKind.Human
            [Card.mk Color.Red Value.Seven, Card.mk Color.Pink Value.Eight],
          Player.mk "AI-1" PlayerKind.AI [Card.mk Color.Pink Value.One],
          Player.mk "AI-2" PlayerKind.AI [Card.mk Color.Purple Value.Nine]],
        topCard := Card.mk Color.Red Value.Reverse,
        direction := -1,
        current := 0 }) :=
  (Game.turn_reverse
    (Examples.game [Card.mk Color.Red Value.Reverse, Card.mk Color.Pink Value.One] 1)
    (HumanInput.mk (-1) Color.Red)
    (Player.mk "AI-1" PlayerKind.AI
      [Card.mk Color.Red Value.Reverse, Card.mk Color.Pink Value.One])
    0 (Card.mk Color.Red Value.Reverse) rfl (Or.inl rfl) (by decide) rfl rfl).1 rfl
    (by decide)

/-! ## Draws in the turn loop -/

/-- The resolution of a DrawFour with the 4 cards in the deck and a chosen color
other than None: the active card gets the chosen color and the player at the
next index draws the 4 top cards. -/
theorem Game.wildEffect_drawFour (g : Game) (inp : HumanInput) (p Q : Player)
    (hp : Game.playerAt g.players g.current = Except.ok p)
    (hv : g.topCard.value = Value.DrawFour)
    (hQ : Game.playerAt g.players
      (Game.nextIndex g.current g.direction g.players.length) = Except.ok Q)
    (h4 : 4 ≤ g.deck.cards.length)
    (hcolor : p.chooseColor inp ≠ Color.None) :
    g.wildEffect inp = Except.ok
      { deck := { cards := g.deck.cards.take (g.deck.cards.length - 4) },
        players := g.players.set
          (Game.nextIndex g.current g.direction g.players.length).toNat
          { Q with hand := Q.hand ++ g.deck.cards.reverse.take 4 },
        topCard := Card.mk (p.chooseColor inp) Value.DrawFour,
        direction := g.direction,
        current := g.current } := by
  have h4' : (4 : Int).toNat ≤ g.deck.cards.length := h4
  obtain ⟨name, hname⟩ := Game.colorName_ok _ hcolor
  simp only [Game.wildEffect, hv, true_or, if_true, hp, hname]
  rw [Game.drawFor_ok _ _ 4 Q (by simpa using hQ) (by simpa using h4')]
  simp [hv]

/-- C19: with `0 <= count` and at least `count` cards in the deck, `drawCard`
appends to the hand the top `count` cards of the deck in draw order, the last
card of the deck first, and leaves the deck without its last `count` cards; the
sizes of hand and deck add up to the same number, and `count` is 1 when it is
not given. -/
theorem Player.drawCard_count (p : Player) (deck : Deck) (count : Int)
    (h0 : 0 ≤ count) (hk : count ≤ deck.cards.length) :
    ∃ drawn kept, deck.cards = kept ++ drawn.reverse
      ∧ (drawn.length : Int) = count
      ∧ p.drawCard deck count =
          Except.ok ({ p with hand := p.hand ++ drawn }, { cards := kept })
      ∧ (p.hand ++ drawn).length + kept.length = p.hand.length + deck.cards.length
      ∧ p.drawCard deck = p.drawCard deck 1 := by
  have hk' : count.toNat ≤ deck.cards.length := by omega
  refine ⟨deck.cards.reverse.take count.toNat,
    deck.cards.take (deck.cards.length - count.toNat), ?_, ?_, ?_, ?_, rfl⟩
  · rw [List.take_reverse, List.reverse_reverse, List.take_append_drop]
  · rw [List.length_take, List.length_reverse]
    omega
  · simp [Player.drawCard, Player.drawLoop_ok _ _ _ hk']
  · simp only [List.length_append, List.length_take, List.length_reverse]
    omega

/-- C19, at a hand of one card and the deck of six cards, for `count = 2`. -/
theorem Player.drawCard_count_witness :
    ∃ drawn kept, Examples.deck.cards = kept ++ drawn.reverse
      ∧ (drawn.length : Int) = 2
      ∧ Player.drawCard (Player.mk "AI-2" PlayerKind.AI [Card.mk Color.Purple Value.Nine])
          Examples.deck 2 =
          Except.ok ({ Player.mk "AI-2" PlayerKind.AI [Card.mk Color.Purple Value.Nine] with
              hand := [Card.mk Color.Purple Value.Nine] ++ drawn }, { cards := kept })
      ∧ ([Card.mk Color.Purple Value.Nine] ++ drawn).length + kept.length = 1 + 6
      ∧ Player.drawCard (Player.mk "AI-2" PlayerKind.AI [Card.mk Color.Purple Value.Nine])
          Examples.deck
        = Player.drawCard (Player.mk "AI-2" PlayerKind.AI [Card.mk Color.Purple Value.Nine])
          Examples.deck 1 :=
  Player.drawCard_count (Player.mk "AI-2" PlayerKind.AI [Card.mk Color.Purple Value.Nine])
    Examples.deck 2 (by decide) (by decide)

/-- C12: when the current player's decision is to draw and the deck is not
empty, the top card of the deck goes to the end of that player's hand; the
active card, the direction and the other hands stay as they are, the loop goes
on, and the next index is `(c + d) mod n`. -/
theorem Game.turn_drawAction (g : Game) (inp : HumanInput) (P : Player) (top : Card)
    (rest : List Card)
    (hP : Game.playerAt g.players g.current = Except.ok P)
    (hd : g.direction = 1 ∨ g.direction = -1)
    (hn : g.players.length < 2 ^ 31)
    (hchoice : P.playTurn g.topCard inp = -1)
    (hdeck : g.deck.cards = rest ++ [top]) :
    g.turn inp = Except.ok (Outcome.next
      { deck := { cards := rest },
        players := g.players.set g.current.toNat { P with hand := P.hand ++ [top] },
        topCard := g.topCard,
        direction := g.direction,
        current := (g.current + g.direction) % (g.players.length : Int) }) := by
  obtain ⟨hc0, hcn, hlt⟩ := Game.playerAt_bound hP
  have h1 := Game.nextIndex_eq g.current g.direction g.players.length hc0 hcn hd hn
  rw [← h1]
  simp [Game.turn, hP, hchoice, Player.drawCard, Player.drawLoop, Deck.draw, hdeck,
    Game.advance]

/-- C12, at a game of three players where AI-1, at index 1 with direction -1,
cannot play its yellow Nine on a red Two and draws the pink Six. -/
theorem Game.turn_drawAction_witness :
    Game.turn (Examples.game [Card.mk Color.Yellow Value.Nine] (-1))
      (HumanInput.mk (-1) Color.Red)
    = Except.ok (Outcome.next
      { deck := { cards := [Card.mk Color.Red Value.One, Card.mk Color.Pink Value.Two,
          Card.mk Color.Purple Value.Three, Card.mk Color.Yellow Value.Four,
          Card.mk Color.Red Value.Five] },
        players := [Player.mk "You" PlayerKind.Human
            [Card.mk Color.Red Value.Seven, Card.mk Color.Pink Value.Eight],
          Player.mk "AI-1" PlayerKind.AI
            [Card.mk Color.Yellow Value.Nine, Card.mk Color.Pink Value.Six],
          Player.mk "AI-2" PlayerKind.AI [Card.mk Color.Purple Value.Nine]],
        topCard := Card.mk Color.Red Value.Two,
        direction := -1,
        current := 0 }) :=
  Game.turn_drawAction (Examples.game [Card.mk Color.Yellow Value.Nine] (-1))
    (HumanInput.mk (-1) Color.Red)
    (Player.mk "AI-1" PlayerKind.AI [Card.mk Color.Yellow Value.Nine])
    (Card.mk Color.Pink Value.Six)
    [Card.mk Color.Red Value.One, Card.mk Color.Pink Value.Two,
      Card.mk Color.Purple Value.Three, Card.mk Color.Yellow Value.Four,
      Card.mk Color.Red Value.Five]
    rfl (Or.inr rfl) (by decide) rfl rfl

/-- The iteration in which the current player plays a DrawTwo and keeps at
least one card, with the 2 cards in the deck: the player at the next index
draws them and is the next to play. -/
theorem Game.turn_drawTwo_next (g : Game) (inp : HumanInput) (P Q : Player) (i : Nat)
    (card : Card)
    (hP : Game.playerAt g.players g.current = Except.ok P)
    (hchoice : P.playTurn g.topCard inp = (i : Int))
    (hcard : P.hand[i]? = some card)
    (hrest : P.hand.eraseIdx i ≠ [])
    (hv : card.value = Value.DrawTwo)
    (hne : Game.nextIndex g.current g.direction g.players.length ≠ g.current)
    (hQ : Game.playerAt g.players
      (Game.nextIndex g.current g.direction g.players.length) = Except.ok Q)
    (hdeck : 2 ≤ g.deck.cards.length) :
    g.turn inp = Except.ok (Outcome.next
      { deck := { cards := g.deck.cards.take (g.deck.cards.length - 2) },
        players := (g.players.set g.current.toNat
            { P with hand := P.hand.eraseIdx i }).set
          (Game.nextIndex g.current g.direction g.players.length).toNat
          { Q with hand := Q.hand ++ g.deck.cards.reverse.take 2 },
        topCard := card,
        direction := g.direction,
        current := Game.nextIndex g.current g.direction g.players.length }) := by
  obtain ⟨hc0, hcn, hlt⟩ := Game.playerAt_bound hP
  have hset := Game.playerAt_set_self hP { P with hand := P.hand.eraseIdx i }
  have hQ' := Game.playerAt_set_ne hQ hc0 (Ne.symm hne) { P with hand := P.hand.eraseIdx i }
  have hempty : (P.hand.eraseIdx i).isEmpty = false := by
    cases hh : P.hand.eraseIdx i with
    | nil => exact absurd hh hrest
    | cons a l => rfl
  have hk : (2 : Int).toNat ≤ g.deck.cards.length := hdeck
  have hdf := Game.drawFor_ok
    { g with topCard := card,
             players := g.players.set g.current.toNat
               { P with hand := P.hand.eraseIdx i } }
    (Game.nextIndex g.current g.direction g.players.length) 2 Q hQ' hk
  simp only [List.length_set] at hdf
  rw [Game.turn_play g inp P i card hP hchoice hcard]
  simp [Game.wildEffect, Game.effects, hv, hset, hempty, hdf, Game.advance]

/-- The iteration in which the current player plays a DrawFour, keeps at least
one card and chooses a color other than None, with the 4 cards in the deck: the
player at the next index draws them and is the next to play. -/
theorem Game.turn_drawFour_next (g : Game) (inp : HumanInput) (P Q : Player) (i : Nat)
    (card : Card)
    (hP : Game.playerAt g.players g.current = Except.ok P)
    (hchoice : P.playTurn g.topCard inp = (i : Int))
    (hcard : P.hand[i]? = some card)
    (hrest : P.hand.eraseIdx i ≠ [])
    (hv : card.value = Value.DrawFour)
    (hne : Game.nextIndex g.current g.direction g.players.length ≠ g.current)
    (hQ : Game.playerAt g.players
      (Game.nextIndex g.current g.direction g.players.length) = Except.ok Q)
    (hdeck : 4 ≤ g.deck.cards.length)
    (hcolor : Player.chooseColor { P with hand := P.hand.eraseIdx i } inp ≠ Color.None) :
    g.turn inp = Except.ok (Outcome.next
      { deck := { cards := g.deck.cards.take (g.deck.cards.length - 4) },
        players := (g.players.set g.current.toNat
            { P with hand := P.hand.eraseIdx i }).set
          (Game.nextIndex g.current g.direction g.players.length).toNat
          { Q with hand := Q.hand ++ g.deck.cards.reverse.take 4 },
        topCard := Card.mk
          (Player.chooseColor { P with hand := P.hand.eraseIdx i } inp) Value.DrawFour,
        direction := g.direction,
        current := Game.nextIndex g.current g.direction g.players.length }) := by
  obtain ⟨hc0, hcn, hlt⟩ := Game.playerAt_bound hP
  obtain ⟨hq0, _, _⟩ := Game.playerAt_bound hQ
  have hset := Game.playerAt_set_self hP { P with hand := P.hand.eraseIdx i }
  have hQ' := Game.playerAt_set_ne hQ hc0 (Ne.symm hne) { P with hand := P.hand.eraseIdx i }
  have hempty : (P.hand.eraseIdx i).isEmpty = false := by
    cases hh : P.hand.eraseIdx i with
    | nil => exact absurd hh hrest
    | cons a l => rfl
  have hset' := Game.playerAt_set_ne hset hq0 hne
    { Q with hand := Q.hand ++ g.deck.cards.reverse.take 4 }
  have hw := Game.wildEffect_drawFour
    { g with topCard := card,
             players := g.players.set g.current.toNat
               { P with hand := P.hand.eraseIdx i } }
    inp { P with hand := P.hand.eraseIdx i } Q hset hv
    (by simpa using hQ') hdeck hcolor
  simp only [List.length_set] at hw
  rw [Game.turn_play g inp P i card hP hchoice hcard, hw]
  simp [Game.effects, hset', hempty, Game.advance]

/-- C11: when the current player plays a DrawTwo (a DrawFour) and keeps at least
one card, with at least two players and 2 (4) cards in the deck, the player at
index `(c + d) mod n` draws the top 2 (4) cards of the deck, no other hand
grows, and the next iteration starts at that same index `(c + d) mod n`.  For
the DrawFour the color the player chooses is one of the four of line 182, not
None, for which the array read of line 183 is undefined. -/
theorem Game.turn_draw_cards (g : Game) (inp : HumanInput) (P : Player) (i : Nat)
    (card : Card)
    (hP : Game.playerAt g.players g.current = Except.ok P)
    (hd : g.direction = 1 ∨ g.direction = -1)
    (h2 : 2 ≤ g.players.length) (hn : g.players.length < 2 ^ 31)
    (hchoice : P.playTurn g.topCard inp = (i : Int))
    (hcard : P.hand[i]? = some card)
    (hrest : P.hand.eraseIdx i ≠ []) :
    ∃ Q, Game.playerAt g.players ((g.current + g.direction) % (g.players.length : Int))
        = Except.ok Q
      ∧ (g.current + g.direction) % (g.players.length : Int) ≠ g.current
      ∧ (card.value = Value.DrawTwo → 2 ≤ g.deck.cards.length →
          g.turn inp = Except.ok (Outcome.next
            { deck := { cards := g.deck.cards.take (g.deck.cards.length - 2) },
              players := (g.players.set g.current.toNat
                  { P with hand := P.hand.eraseIdx i }).set
                ((g.current + g.direction) % (g.players.length : Int)).toNat
                { Q with hand := Q.hand ++ g.deck.cards.reverse.take 2 },
              topCard := card,
              direction := g.direction,
              current := (g.current + g.direction) % (g.players.length : Int) }))
      ∧ (card.value = Value.DrawFour → 4 ≤ g.deck.cards.length →
          Player.chooseColor { P with hand := P.hand.eraseIdx i } inp ≠ Color.None →
          g.turn inp = Except.ok (Outcome.next
            { deck := { cards := g.deck.cards.take (g.deck.cards.length - 4) },
              players := (g.players.set g.current.toNat
                  { P with hand := P.hand.eraseIdx i }).set
                ((g.current + g.direction) % (g.players.length : Int)).toNat
                { Q with hand := Q.hand ++ g.deck.cards.reverse.take 4 },
              topCard := Card.mk
                (Player.chooseColor { P with hand := P.hand.eraseIdx i } inp) Value.DrawFour,
              direction := g.direction,
              current := (g.current + g.direction) % (g.players.length : Int) })) := by
  obtain ⟨hc0, hcn, hlt⟩ := Game.playerAt_bound hP
  have hr := Game.nextIndex_range g.current g.direction g.players.length (by omega)
  obtain ⟨Q, hQ⟩ := Game.playerAt_of_range g.players _ hr.1 hr.2
  have hne := Game.nextIndex_ne g.current g.direction g.players.length hc0 hcn hd hn h2
  have h1 := Game.nextIndex_eq g.current g.direction g.players.length hc0 hcn hd hn
  refine ⟨Q, h1 ▸ hQ, h1 ▸ hne, ?_, ?_⟩
  · intro hv hdeck
    rw [← h1]
    exact Game.turn_drawTwo_next g inp P Q i card hP hchoice hcard hrest hv hne hQ hdeck
  · intro hv hdeck hcolor
    rw [← h1]
    exact Game.turn_drawFour_next g inp P Q i card hP hchoice hcard hrest hv hne hQ hdeck
      hcolor

/-- AI-1, at index 1 with direction 1, plays a DrawFour and keeps a pink One, of
which it chooses the color: AI-2 at index 2 draws the 4 top cards of the deck
and is the next to play. -/
theorem Game.turn_drawFour_example :
    Game.turn
      (Examples.game [Card.mk Color.None Value.DrawFour, Card.mk Color.Pink Value.One] 1)
      (HumanInput.mk (-1) Color.Red)
    = Except.ok (Outcome.next
      { deck := { cards := [Card.mk Color.Red Value.One, Card.mk Color.Pink Value.Two] },
        players := [Player.mk "You" PlayerKind.Human
            [Card.mk Color.Red Value.Seven, Card.mk Color.Pink Value.Eight],
          Player.mk "AI-1" PlayerKind.AI [Card.mk Color.Pink Value.One],
          Player.mk "AI-2" PlayerKind.AI
            [Card.mk Color.Purple Value.Nine, Card.mk Color.Pink Value.Six,
              Card.mk Color.Red Value.Five, Card.mk Color.Yellow Value.Four,
              Card.mk Color.Purple Value.Three]],
        topCard := Card.mk Color.Pink Value.DrawFour,
        direction := 1,
        current := 2 }) := rfl

/-- C11, at a game of three players where AI-1, at index 1 with direction 1,
plays a red DrawTwo on a red Two: AI-2 at index 2 draws the pink Six and the
red Five, and the next iteration starts at index 2. -/
theorem Game.turn_draw_cards_witness :
    ∃ Q, Game.playerAt
        (Examples.game [Card.mk Color.Red Value.DrawTwo, Card.mk Color.Pink Value.One] 1).players
        2 = Except.ok Q
      ∧ Game.turn
          (Examples.game [Card.mk Color.Red Value.DrawTwo, Card.mk Color.Pink Value.One] 1)
          (HumanInput.mk (-1) Color.Red)
        = Except.ok (Outcome.next
          { deck := { cards := [Card.mk Color.Red Value.One, Card.mk Color.Pink Value.Two,
              Card.mk Color.Purple Value.Three, Card.mk Color.Yellow Value.Four] },
            players := [Player.mk "You" PlayerKind.Human
                [Card.mk Color.Red Value.Seven, Card.mk Color.Pink Value.Eight],
              Player.mk "AI-1" PlayerKind.AI [Card.mk Color.Pink Value.One],
              { Q with hand := Q.hand ++
                  [Card.mk Color.Pink Value.Six, Card.mk Color.Red Value.Five] }],
            topCard := Card.mk Color.Red Value.DrawTwo,
            direction := 1,
            current := 2 }) :=
  (Game.turn_draw_cards
    (Examples.game [Card.mk Color.Red Value.DrawTwo, Card.mk Color.Pink Value.One] 1)
    (HumanInput.mk (-1) Color.Red)
    (Player.mk "AI-1" PlayerKind.AI
      [Card.mk Color.Red Value.DrawTwo, Card.mk Color.Pink Value.One])
    0 (Card.mk Color.Red Value.DrawTwo) rfl (Or.inl rfl) (by decide) (by decide) rfl rfl
    (by decide)).elim
    fun Q h => ⟨Q, h.1, h.2.2.1 rfl (by decide)⟩

/-- C18: when the current player plays the card at a valid index `i`, that
player's hand afterwards is the hand without its element `i`, order kept; the
other hands and the deck are as before unless the card is a DrawTwo or a
DrawFour; the active card has the value of the played card and, unless it is
a DrawFour or ColorChange, is that card; a numeric card that does not empty
the hand leaves the direction and moves the index to `(c + d) mod n`.  For a
DrawFour, and for a DrawTwo that does not empty the hand, the iteration is
defined with at least two players and the cards of the draw in the deck.  For
a wild card (DrawFour or ColorChange) the color the player chooses is one of
the four of line 182, not None, for which the array read of line 183 is
undefined. -/
theorem Game.turn_play_frame (g : Game) (inp : HumanInput) (P : Player) (i : Nat)
    (card : Card)
    (hP : Game.playerAt g.players g.current = Except.ok P)
    (hd : g.direction = 1 ∨ g.direction = -1)
    (hn : g.players.length < 2 ^ 31)
    (hchoice : P.playTurn g.topCard inp = (i : Int))
    (hcard : P.hand[i]? = some card)
    (h4 : card.value = Value.DrawFour → 2 ≤ g.players.length ∧ 4 ≤ g.deck.cards.length)
    (h2 : card.value = Value.DrawTwo → P.hand.eraseIdx i ≠ [] →
      2 ≤ g.players.length ∧ 2 ≤ g.deck.cards.length)
    (hcolor : card.value = Value.DrawFour ∨ card.value = Value.ColorChange →
      Player.chooseColor { P with hand := P.hand.eraseIdx i } inp ≠ Color.None) :
    ∃ o, g.turn inp = Except.ok o
      ∧ Game.playerAt o.game.players g.current
          = Except.ok { P with hand := P.hand.eraseIdx i }
      ∧ (card.value ≠ Value.DrawTwo → card.value ≠ Value.DrawFour →
          o.game.players = g.players.set g.current.toNat { P with hand := P.hand.eraseIdx i }
          ∧ o.game.deck = g.deck)
      ∧ o.game.topCard.value = card.value
      ∧ (card.value ≠ Value.DrawFour → card.value ≠ Value.ColorChange →
          o.game.topCard = card)
      ∧ (card.value ∈ [Value.One, Value.Two, Value.Three, Value.Four, Value.Five,
            Value.Six, Value.Seven, Value.Eight, Value.Nine] →
          P.hand.eraseIdx i ≠ [] →
          o = Outcome.next
            { deck := g.deck,
              players := g.players.set g.current.toNat { P with hand := P.hand.eraseIdx i },
              topCard := card,
              direction := g.direction,
              current := (g.current + g.direction) % (g.players.length : Int) }) := by
  obtain ⟨hc0, hcn, hlt⟩ := Game.playerAt_bound hP
  have hset := Game.playerAt_set_self hP { P with hand := P.hand.eraseIdx i }
  have h1 := Game.nextIndex_eq g.current g.direction g.players.length hc0 hcn hd hn
  have hr := Game.nextIndex_range g.current g.direction g.players.length (by omega)
  obtain ⟨Q, hQ⟩ := Game.playerAt_of_range g.players _ hr.1 hr.2
  by_cases hv4 : card.value = Value.DrawFour
  · -- a DrawFour: the following player draws, then the win test
    obtain ⟨hn2, hdeck⟩ := h4 hv4
    have hne := Game.nextIndex_ne g.current g.direction g.players.length hc0 hcn hd hn hn2
    have hset' := Game.playerAt_set_ne hset hr.1 hne
      { Q with hand := Q.hand ++ g.deck.cards.reverse.take 4 }
    have hcol := hcolor (Or.inl hv4)
    by_cases hrest : P.hand.eraseIdx i = []
    · refine ⟨_, Game.turn_last_drawFour g inp P Q i card hP hchoice hcard hrest hv4 hd hn2 hn
        hdeck hQ (hrest ▸ hcol), ?_, ?_, ?_, ?_, ?_⟩
      · rw [hrest] at hset' ⊢
        exact hset'
      · intro _ h
        exact absurd hv4 h
      · exact hv4.symm
      · intro h
        exact absurd hv4 h
      · intro _ h
        exact absurd hrest h
    · refine ⟨_, Game.turn_drawFour_next g inp P Q i card hP hchoice hcard hrest hv4 hne hQ
        hdeck hcol, hset', ?_, hv4.symm, ?_, ?_⟩
      · intro _ h
        exact absurd hv4 h
      · intro h
        exact absurd hv4 h
      · intro hnum
        rw [hv4] at hnum
        exact absurd hnum (by decide)
  · have hname : card.value = Value.ColorChange → ∃ name,
        Game.colorName (Player.chooseColor { P with hand := P.hand.eraseIdx i } inp)
          = Except.ok name :=
      fun h => Game.colorName_ok _ (hcolor (Or.inr h))
    by_cases hrest : P.hand.eraseIdx i = []
    · -- the last card, not a DrawFour: the break of line 193
      have hset0 := hset
      rw [hrest] at hset0 hname
      rw [Game.turn_play g inp P i card hP hchoice hcard, hrest]
      by_cases hcc : card.value = Value.ColorChange
      · obtain ⟨name, hnm⟩ := hname hcc
        simp [Game.wildEffect, Game.effects, hcc, hset0, Outcome.game, hnm]
      · cases hval : card.value <;> first
          | exact absurd hval hv4
          | exact absurd hval hcc
          | simp [Game.wildEffect, Game.effects, hval, hset0, Outcome.game]
    · have hempty : (P.hand.eraseIdx i).isEmpty = false := by
        cases hh : P.hand.eraseIdx i with
        | nil => exact absurd hh hrest
        | cons a l => rfl
      by_cases hv2 : card.value = Value.DrawTwo
      · obtain ⟨hn2, hdeck⟩ := h2 hv2 hrest
        have hne := Game.nextIndex_ne g.current g.direction g.players.length hc0 hcn hd hn hn2
        have hset' := Game.playerAt_set_ne hset hr.1 hne
          { Q with hand := Q.hand ++ g.deck.cards.reverse.take 2 }
        refine ⟨_, Game.turn_drawTwo_next g inp P Q i card hP hchoice hcard hrest hv2 hne hQ
          hdeck, hset', ?_, rfl, fun _ _ => rfl, ?_⟩
        · intro h
          exact absurd hv2 h
        · intro hnum
          rw [hv2] at hnum
          exact absurd hnum (by decide)
      · rw [Game.turn_play g inp P i card hP hchoice hcard, ← h1]
        by_cases hcc : card.value = Value.ColorChange
        · obtain ⟨name, hnm⟩ := hname hcc
          simp [Game.wildEffect, Game.effects, hcc, hset, hempty, Outcome.game,
            Game.advance, hnm]
        · cases hval : card.value <;> first
            | exact absurd hval hv4
            | exact absurd hval hv2
            | exact absurd hval hcc
            | simp [Game.wildEffect, Game.effects, hval, hset, hempty, Outcome.game,
                Game.advance]

/-- C18, at a game of three players where AI-1, at index 1 with direction 1,
plays a pink Two on a red Two and keeps a red Five: only AI-1's hand changes,
the pink Two is the active card and the next index is 2. -/
theorem Game.turn_play_frame_witness :
    Game.turn
      (Examples.game [Card.mk Color.Pink Value.Two, Card.mk Color.Red Value.Five] 1)
      (HumanInput.mk (-1) Color.Red)
    = Except.ok (Outcome.next
      { deck := Examples.deck,
        players := [Player.mk "You" PlayerKind.Human
            [Card.mk Color.Red Value.Seven, Card.mk Color.Pink Value.Eight],
          Player.mk "AI-1" PlayerKind.AI [Card.mk Color.Red Value.Five],
          Player.mk "AI-2" PlayerKind.AI [Card.mk Color.Purple Value.Nine]],
        topCard := Card.mk Color.Pink Value.Two,
        direction := 1,
        current := 2 }) :=
  (Game.turn_play_frame
    (Examples.game [Card.mk Color.Pink Value.Two, Card.mk Color.Red Value.Five] 1)
    (HumanInput.mk (-1) Color.Red)
    (Player.mk "AI-1" PlayerKind.AI
      [Card.mk Color.Pink Value.Two, Card.mk Color.Red Value.Five])
    0 (Card.mk Color.Pink Value.Two) rfl (Or.inl rfl) (by decide) rfl rfl
    (fun h => absurd h (by decide)) (fun h => absurd h (by decide))
    (fun _ => by decide)).elim
    fun _ h => h.2.2.2.2.2 (by decide) (by decide) ▸ h.1

/-! ## Turn order: auxiliary facts -/

/-- Lines 191-202 keep the turn order sound. -/
theorem Game.effects_order {n : Nat} {g : Game} {o : Outcome}
    (h : g.effects = Except.ok o) (hg : g.TurnOrderOk n) : o.game.TurnOrderOk n := by
  obtain ⟨hd, hc0, hcn, hlen⟩ := hg
  have hn0 : 0 < g.players.length := by omega
  have hr := Game.nextIndex_range g.current g.direction g.players.length hn0
  have hflip : -g.direction = 1 ∨ -g.direction = -1 := by
    rcases hd with h | h <;> rw [h] <;> simp
  unfold Game.effects at h
  cases hp : Game.playerAt g.players g.current with
  | error e =>
    rw [hp] at h
    exact Except.noConfusion h
  | ok p =>
    rw [hp] at h
    by_cases he : p.hand.isEmpty = true
    · simp only [he, if_true] at h
      injection h with h
      subst h
      exact ⟨hd, hc0, hcn, hlen⟩
    · cases hdf : g.drawFor (Game.nextIndex g.current g.direction g.players.length) 2 with
      | error e =>
        cases hval : g.topCard.value <;> simp [he, hval, hdf] at h <;> subst h <;> first
          | exact ⟨hd, hc0, hcn, hlen⟩
          | exact ⟨hflip, hc0, hcn, hlen⟩
          | exact ⟨hd, hr.1, hlen ▸ hr.2, hlen⟩
      | ok g2 =>
        obtain ⟨f1, f2, _, f4⟩ := Game.drawFor_fields hdf
        cases hval : g.topCard.value <;> simp [he, hval, hdf] at h <;> subst h <;> first
          | exact ⟨hd, hc0, hcn, hlen⟩
          | exact ⟨hflip, hc0, hcn, hlen⟩
          | exact ⟨hd, hr.1, hlen ▸ hr.2, hlen⟩
          | exact ⟨f1 ▸ hd, f2 ▸ hc0, f2 ▸ hcn, f4 ▸ hlen⟩

/-- Line 204 keeps the turn order sound. -/
theorem Game.advance_order {n : Nat} {g : Game} (hg : g.TurnOrderOk n) :
    g.advance.TurnOrderOk n := by
  obtain ⟨hd, hc0, hcn, hlen⟩ := hg
  have hr := Game.nextIndex_range g.current g.direction g.players.length (by omega)
  exact ⟨hd, hr.1, hlen ▸ hr.2, hlen⟩

/-- One iteration keeps the turn order sound. -/
theorem Game.turn_order {n : Nat} {g : Game} {inp : HumanInput} {o : Outcome}
    (h : g.turn inp = Except.ok o) (hg : g.TurnOrderOk n) : o.game.TurnOrderOk n := by
  obtain ⟨hd, hc0, hcn, hlen⟩ := hg
  unfold Game.turn at h
  cases hp : Game.playerAt g.players g.current with
  | error e =>
    rw [hp] at h
    exact Except.noConfusion h
  | ok p =>
    rw [hp] at h
    simp only at h
    by_cases hc : p.playTurn g.topCard inp = -1
    · rw [if_pos hc] at h
      cases hdc : p.drawCard g.deck with
      | error e =>
        rw [hdc] at h
        exact Except.noConfusion h
      | ok r =>
        obtain ⟨p1, d1⟩ := r
        rw [hdc] at h
        simp only at h
        injection h with h
        subst h
        exact Game.advance_order ⟨hd, hc0, hcn, by simpa using hlen⟩
    · rw [if_neg hc] at h
      cases hca : Game.cardAt p.hand (p.playTurn g.topCard inp) with
      | error e =>
        rw [hca] at h
        exact Except.noConfusion h
      | ok card =>
        rw [hca] at h
        simp only at h
        cases hw : Game.wildEffect
            { g with topCard := card,
                     players := g.players.set g.current.toNat
                       { p with hand := p.hand.eraseIdx (p.playTurn g.topCard inp).toNat } }
            inp with
        | error e =>
          rw [hw] at h
          exact Except.noConfusion h
        | ok g2 =>
          rw [hw] at h
          simp only at h
          obtain ⟨f1, f2, _, f4⟩ := Game.wildEffect_fields hw
          have hg2 : g2.TurnOrderOk n :=
            ⟨f1 ▸ hd, f2 ▸ hc0, f2 ▸ hcn, by rw [f4]; simpa using hlen⟩
          cases he : g2.effects with
          | error e =>
            rw [he] at h
            exact Except.noConfusion h
          | ok o2 =>
            rw [he] at h
            have ho2 := Game.effects_order he hg2
            cases o2 with
            | next g3 =>
              simp only at h
              injection h with h
              subst h
              exact Game.advance_order ho2
            | wins w g3 =>
              simp only at h
              injection h with h
              subst h
              exact ho2

/-- The loop keeps the turn order sound. -/
theorem Game.run_order {n : Nat} (inps : List HumanInput) (g : Game) (o : Outcome)
    (h : g.run inps = Except.ok o) (hg : g.TurnOrderOk n) : o.game.TurnOrderOk n := by
  induction inps generalizing g with
  | nil =>
    simp only [Game.run] at h
    injection h with h
    subst h
    exact hg
  | cons inp rest ih =>
    simp only [Game.run] at h
    cases hturn : g.turn inp with
    | error e =>
      rw [hturn] at h
      exact Except.noConfusion h
    | ok o1 =>
      rw [hturn] at h
      have h1 := Game.turn_order hturn hg
      cases o1 with
      | next g1 =>
        simp only at h
        exact ih g1 h h1
      | wins w g1 =>
        simp only at h
        injection h with h
        subst h
        exact h1

/-- C20: from the start of the loop (index 0, direction `+1`, at least two
players) every state the loop reaches has direction `+1` or `-1` and an index
inside the deque, so `players[current]` and `players[next]` are in bounds; and
the index expression, evaluated with the wrap modulo `2 ^ 64` of the unsigned
sum, equals `(c + d) mod n` for every such index and direction, also for
`c = 0`, `d = -1`. -/
theorem Game.start_turn_order (g : Game) (inps : List HumanInput) (o : Outcome)
    (hdir : g.direction = 1) (h2 : 2 ≤ g.players.length)
    (hn : g.players.length < 2 ^ 31)
    (hrun : g.start inps = Except.ok o) :
    (o.game.direction = 1 ∨ o.game.direction = -1)
    ∧ 0 ≤ o.game.current ∧ o.game.current < g.players.length
    ∧ o.game.players.length = g.players.length
    ∧ (∃ p, Game.playerAt o.game.players o.game.current = Except.ok p)
    ∧ (∃ q, Game.playerAt o.game.players
        (Game.nextIndex o.game.current o.game.direction o.game.players.length)
        = Except.ok q)
    ∧ (∀ c d : Int, 0 ≤ c → c < g.players.length → (d = 1 ∨ d = -1) →
        Game.nextIndex c d g.players.length = (c + d) % (g.players.length : Int)
        ∧ 0 ≤ Game.nextIndex c d g.players.length
        ∧ Game.nextIndex c d g.players.length < g.players.length)
    ∧ ((0 : Int) + -1) % (2 : Int) ^ 64 = (2 : Int) ^ 64 - 1
    ∧ Game.nextIndex 0 (-1) g.players.length = (g.players.length : Int) - 1 := by
  have hstart : Game.TurnOrderOk g.players.length { g with current := 0 } :=
    ⟨Or.inl hdir, le_refl _, by simp; omega, rfl⟩
  obtain ⟨hd, hc0, hcn, hlen⟩ := Game.run_order inps _ o hrun hstart
  have hn0 : 0 < o.game.players.length := by omega
  have hr := Game.nextIndex_range o.game.current o.game.direction o.game.players.length hn0
  have hwrap : Game.nextIndex 0 (-1) g.players.length = (g.players.length : Int) - 1 := by
    rw [Game.nextIndex_eq 0 (-1) g.players.length (le_refl _) (by omega) (Or.inr rfl) hn]
    have hpos : (0 : Int) < (g.players.length : Int) := by omega
    have e : (0 : Int) + -1 = ((g.players.length : Int) - 1) + (g.players.length : Int) * (-1) := by
      ring
    rw [e, Int.add_mul_emod_self_left]
    exact Int.emod_eq_of_lt (by omega) (by omega)
  refine ⟨hd, hc0, hcn, hlen, ?_, ?_, ?_, by norm_num, hwrap⟩
  · exact Game.playerAt_of_range _ _ hc0 (by rw [hlen]; exact hcn)
  · exact Game.playerAt_of_range _ _ hr.1 hr.2
  · intro c d h0 hlt hd'
    have hr' := Game.nextIndex_range c d g.players.length (by omega)
    exact ⟨Game.nextIndex_eq c d g.players.length h0 hlt hd' hn, hr'.1, hr'.2⟩

/-- C20, at a game of three players in which the interactive player plays a red
Seven, AI-1 plays a red Reverse and the interactive player draws: the index
goes 0, 1, 0 and then wraps from 0 to 2 with direction -1. -/
theorem Game.start_turn_order_witness :
    Game.start
        (Examples.game [Card.mk Color.Red Value.Reverse, Card.mk Color.Pink Value.One] 1)
        [HumanInput.mk 0 Color.Red, HumanInput.mk (-1) Color.Red,
          HumanInput.mk (-1) Color.Red]
      = Except.ok (Outcome.next
        { deck := { cards := [Card.mk Color.Red Value.One, Card.mk Color.Pink Value.Two,
            Card.mk Color.Purple Value.Three, Card.mk Color.Yellow Value.Four,
            Card.mk Color.Red Value.Five] },
          players := [Player.mk "You" PlayerKind.Human
              [Card.mk Color.Pink Value.Eight, Card.mk Color.Pink Value.Six],
            Player.mk "AI-1" PlayerKind.AI [Card.mk Color.Pink Value.One],
            Player.mk "AI-2" PlayerKind.AI [Card.mk Color.Purple Value.Nine]],
          topCard := Card.mk Color.Red Value.Reverse,
          direction := -1,
          current := 2 })
    ∧ ((-1 : Int) = 1 ∨ (-1 : Int) = -1) ∧ (0 : Int) ≤ 2 ∧ (2 : Int) < (3 : Nat) :=
  have h := Game.start_turn_order
    (Examples.game [Card.mk Color.Red Value.Reverse, Card.mk Color.Pink Value.One] 1)
    [HumanInput.mk 0 Color.Red, HumanInput.mk (-1) Color.Red, HumanInput.mk (-1) Color.Red]
    (Outcome.next
      { deck := { cards := [Card.mk Color.Red Value.One, Card.mk Color.Pink Value.Two,
          Card.mk Color.Purple Value.Three, Card.mk Color.Yellow Value.Four,
          Card.mk Color.Red Value.Five] },
        players := [Player.mk "You" PlayerKind.Human
            [Card.mk Color.Pink Value.Eight, Card.mk Color.Pink Value.Six],
          Player.mk "AI-1" PlayerKind.AI [Card.mk Color.Pink Value.One],
          Player.mk "AI-2" PlayerKind.AI [Card.mk Color.Purple Value.Nine]],
        topCard := Card.mk Color.Red Value.Reverse,
        direction := -1,
        current := 2 })
    rfl (by decide) (by decide) (by rfl)
  ⟨rfl, h.1, h.2.1, h.2.2.1⟩

/-! ## The automated player: theorems -/

/-- C17 fails as stated: with a pink Two and a red Five in hand and a red Two
as the active card, the hand holds a red card, yet `playTurn` returns index 0,
the pink Two, which matches by value and is not red. -/
theorem AIPlayer.playTurn_not_color_match :
    (∃ c ∈ [Card.mk Color.Pink Value.Two, Card.mk Color.Red Value.Five],
        c.color = (Card.mk Color.Red Value.Two).color)
    ∧ AIPlayer.playTurn [Card.mk Color.Pink Value.Two, Card.mk Color.Red Value.Five]
        (Card.mk Color.Red Value.Two) = 0
    ∧ [Card.mk Color.Pink Value.Two, Card.mk Color.Red Value.Five][0]?
        = some (Card.mk Color.Pink Value.Two)
    ∧ (Card.mk Color.Pink Value.Two).color ≠ (Card.mk Color.Red Value.Two).color := by
  decide

/-- C17 as the code has it: when the hand holds a card of the active card's
color, `playTurn` does not signal a draw; it returns the index of the first
card that can be played, which stands at or before every card of that color
and matches the active card by color, by value or as a wild card; it is a card
of that color when it neither has the active card's value nor is wild. -/
theorem AIPlayer.playTurn_color_match (hand : List Card) (topCard : Card)
    (h : ∃ c ∈ hand, c.color = topCard.color) :
    AIPlayer.playTurn hand topCard ≠ -1
    ∧ ∃ (i : Nat) (card : Card), AIPlayer.playTurn hand topCard = (i : Int)
        ∧ hand[i]? = some card
        ∧ card.canPlayOn topCard = true
        ∧ (∀ (j : Nat) (c' : Card), j < i → hand[j]? = some c' →
            c'.canPlayOn topCard = false)
        ∧ (∀ (j : Nat) (c' : Card), hand[j]? = some c' → c'.color = topCard.color → i ≤ j)
        ∧ (card.value ≠ topCard.value → card.value ≠ Value.DrawFour →
            card.value ≠ Value.ColorChange → card.color = topCard.color) := by
  obtain ⟨c, hc, hcol⟩ := h
  have hplay : c.canPlayOn topCard = true := by simp [Card.canPlayOn, hcol]
  rcases AIPlayer.scan_first topCard hand 0 with ⟨_, hnone⟩ | ⟨k, card, hk, hcard, hs, hmin⟩
  · rw [hnone c hc] at hplay
    exact Bool.noConfusion hplay
  · have hres : AIPlayer.playTurn hand topCard = (k : Int) := by
      simpa [AIPlayer.playTurn] using hs
    refine ⟨by rw [hres]; omega, k, card, hres, hk, hcard, hmin, ?_, ?_⟩
    · intro j c' hj hcol'
      by_contra hlt
      have := hmin j c' (by omega) hj
      simp [Card.canPlayOn, hcol'] at this
    · intro h1 h2 h3
      simp only [Card.canPlayOn, Bool.or_eq_true, beq_iff_eq] at hcard
      rcases hcard with ((h | h) | h) | h
      · exact h
      · exact absurd h h1
      · exact absurd h h2
      · exact absurd h h3

/-- C17 as the code has it, at a hand of a yellow Nine and a red Five on a red
Two: the red Five at index 1 is returned. -/
theorem AIPlayer.playTurn_color_match_witness :
    AIPlayer.playTurn [Card.mk Color.Yellow Value.Nine, Card.mk Color.Red Value.Five]
        (Card.mk Color.Red Value.Two) ≠ -1
    ∧ ∃ (i : Nat) (card : Card),
        AIPlayer.playTurn [Card.mk Color.Yellow Value.Nine, Card.mk Color.Red Value.Five]
          (Card.mk Color.Red Value.Two) = (i : Int)
        ∧ [Card.mk Color.Yellow Value.Nine, Card.mk Color.Red Value.Five][i]? = some card
        ∧ card.canPlayOn (Card.mk Color.Red Value.Two) = true
        ∧ (i : Int) = 1 :=
  have h := AIPlayer.playTurn_color_match
    [Card.mk Color.Yellow Value.Nine, Card.mk Color.Red Value.Five]
    (Card.mk Color.Red Value.Two) ⟨Card.mk Color.Red Value.Five, by decide, rfl⟩
  ⟨h.1, h.2.elim fun i hi => hi.elim fun card hc =>
    ⟨i, card, hc.1, hc.2.1, hc.2.2.1, hc.1.symm.trans (by decide)⟩⟩

/-- The counting loop of `chooseColor` (lines 140-141) adds to each of the four
counters the number of cards of its color; cards with color None are left out. -/
theorem AIPlayer.counts_eq (hand : List Card) (a b c d : Nat) :
    hand.foldl (fun counts card =>
      if card.color ≠ Color.None ∧ card.color.toNat < 4 then
        AIPlayer.increment counts card.color.toNat
      else counts) [a, b, c, d]
    = [a + hand.countP (fun x => x.color = Color.Red),
       b + hand.countP (fun x => x.color = Color.Pink),
       c + hand.countP (fun x => x.color = Color.Purple),
       d + hand.countP (fun x => x.color = Color.Yellow)] := by
  induction hand generalizing a b c d with
  | nil => simp
  | cons card rest ih =>
    simp only [List.foldl_cons]
    cases hcol : card.color
    · have step : (if Color.Red ≠ Color.None ∧ Color.Red.toNat < 4 then
          AIPlayer.increment [a, b, c, d] Color.Red.toNat else [a, b, c, d])
          = [a + 1, b, c, d] := by simp [AIPlayer.increment, Color.toNat]
      rw [step, ih]
      simp [List.countP_cons, hcol]
      omega
    · have step : (if Color.Pink ≠ Color.None ∧ Color.Pink.toNat < 4 then
          AIPlayer.increment [a, b, c, d] Color.Pink.toNat else [a, b, c, d])
          = [a, b + 1, c, d] := by simp [AIPlayer.increment, Color.toNat]
      rw [step, ih]
      simp [List.countP_cons, hcol]
      omega
    · have step : (if Color.Purple ≠ Color.None ∧ Color.Purple.toNat < 4 then
          AIPlayer.increment [a, b, c, d] Color.Purple.toNat else [a, b, c, d])
          = [a, b, c + 1, d] := by simp [AIPlayer.increment, Color.toNat]
      rw [step, ih]
      simp [List.countP_cons, hcol]
      omega
    · have step : (if Color.Yellow ≠ Color.None ∧ Color.Yellow.toNat < 4 then
          AIPlayer.increment [a, b, c, d] Color.Yellow.toNat else [a, b, c, d])
          = [a, b, c, d + 1] := by simp [AIPlayer.increment, Color.toNat]
      rw [step, ih]
      simp [List.countP_cons, hcol]
      omega
    · have step : (if Color.None ≠ Color.None ∧ Color.None.toNat < 4 then
          AIPlayer.increment [a, b, c, d] Color.None.toNat else [a, b, c, d])
          = [a, b, c, d] := by simp
      rw [step, ih]
      simp [List.countP_cons, hcol]

/-- The loop of line 143 on four counts: it ends at an index below 4 whose
count is the largest, the first such index. -/
theorem AIPlayer.maxIndex_spec (R P U Y : Nat) :
    [1, 2, 3].foldl (fun maxIndex i =>
        if [R, P, U, Y].getD i 0 > [R, P, U, Y].getD maxIndex 0 then i else maxIndex) 0 < 4
    ∧ (∀ j, j < 4 → [R, P, U, Y].getD j 0 ≤ [R, P, U, Y].getD
        ([1, 2, 3].foldl (fun maxIndex i =>
          if [R, P, U, Y].getD i 0 > [R, P, U, Y].getD maxIndex 0 then i else maxIndex) 0) 0)
    ∧ (∀ j, j < 4 → [R, P, U, Y].getD j 0 = [R, P, U, Y].getD
        ([1, 2, 3].foldl (fun maxIndex i =>
          if [R, P, U, Y].getD i 0 > [R, P, U, Y].getD maxIndex 0 then i else maxIndex) 0) 0 →
        [1, 2, 3].foldl (fun maxIndex i =>
          if [R, P, U, Y].getD i 0 > [R, P, U, Y].getD maxIndex 0 then i else maxIndex) 0
          ≤ j) := by
  simp only [List.foldl, List.getD_cons_zero, List.getD_cons_succ]
  by_cases h1 : P > R <;> simp only [h1, if_true, if_false, List.getD_cons_zero,
    List.getD_cons_succ]
  · by_cases h2 : U > P <;> simp only [h2, if_true, if_false, List.getD_cons_zero,
      List.getD_cons_succ]
    · by_cases h3 : Y > U <;> simp only [h3, if_true, if_false, List.getD_cons_zero,
        List.getD_cons_succ]
      all_goals refine ⟨by omega, ?_, ?_⟩ <;> intro j hj <;> interval_cases j <;> simp <;> omega
    · by_cases h3 : Y > P <;> simp only [h3, if_true, if_false, List.getD_cons_zero,
        List.getD_cons_succ]
      all_goals refine ⟨by omega, ?_, ?_⟩ <;> intro j hj <;> interval_cases j <;> simp <;> omega
  · by_cases h2 : U > R <;> simp only [h2, if_true, if_false, List.getD_cons_zero,
      List.getD_cons_succ]
    · by_cases h3 : Y > U <;> simp only [h3, if_true, if_false, List.getD_cons_zero,
        List.getD_cons_succ]
      all_goals refine ⟨by omega, ?_, ?_⟩ <;> intro j hj <;> interval_cases j <;> simp <;> omega
    · by_cases h3 : Y > R <;> simp only [h3, if_true, if_false, List.getD_cons_zero,
        List.getD_cons_succ]
      all_goals refine ⟨by omega, ?_, ?_⟩ <;> intro j hj <;> interval_cases j <;> simp <;> omega

/-- The count that the loop of lines 140-141 keeps at index `(int)c`. -/
theorem AIPlayer.count_getD (hand : List Card) (c : Color) (hc : c ≠ Color.None) :
    [hand.countP (fun x => x.color = Color.Red),
      hand.countP (fun x => x.color = Color.Pink),
      hand.countP (fun x => x.color = Color.Purple),
      hand.countP (fun x => x.color = Color.Yellow)].getD c.toNat 0
    = hand.countP (fun x => x.color = c) := by
  cases c <;> first
    | exact absurd rfl hc
    | rfl

/-- The cast of an index below 4 is a color with that underlying value, and
not None. -/
theorem Color.ofNat?_lt_four (m : Nat) (hm : m < 4) :
    ((Color.ofNat? m).getD Color.None).toNat = m
    ∧ (Color.ofNat? m).getD Color.None ≠ Color.None := by
  interval_cases m <;> exact ⟨rfl, by decide⟩

/-- The color `chooseColor` returns is the cast of the index the loop of line
143 ends at, and its count is the count at that index. -/
theorem AIPlayer.chooseColor_eq (hand : List Card) :
    AIPlayer.chooseColor hand =
      (Color.ofNat? ([1, 2, 3].foldl (fun maxIndex i =>
        if [hand.countP (fun x => x.color = Color.Red),
            hand.countP (fun x => x.color = Color.Pink),
            hand.countP (fun x => x.color = Color.Purple),
            hand.countP (fun x => x.color = Color.Yellow)].getD i 0
          > [hand.countP (fun x => x.color = Color.Red),
            hand.countP (fun x => x.color = Color.Pink),
            hand.countP (fun x => x.color = Color.Purple),
            hand.countP (fun x => x.color = Color.Yellow)].getD maxIndex 0
        then i else maxIndex) 0)).getD Color.None := by
  unfold AIPlayer.chooseColor
  simp only [AIPlayer.counts_eq, Nat.zero_add]

/-- C13: for every hand the automated player's `chooseColor` returns one of
Red, Pink, Purple, Yellow, never None; no other of the four colors occurs more
often in the hand, and no color that occurs as often comes before it in the
order Red, Pink, Purple, Yellow.  Cards with color None are not counted. -/
theorem AIPlayer.chooseColor_max (hand : List Card) :
    (AIPlayer.chooseColor hand = Color.Red ∨ AIPlayer.chooseColor hand = Color.Pink
      ∨ AIPlayer.chooseColor hand = Color.Purple ∨ AIPlayer.chooseColor hand = Color.Yellow)
    ∧ AIPlayer.chooseColor hand ≠ Color.None
    ∧ (∀ c : Color, c ≠ Color.None →
        hand.countP (fun x => x.color = c)
          ≤ hand.countP (fun x => x.color = AIPlayer.chooseColor hand))
    ∧ (∀ c : Color, c ≠ Color.None →
        hand.countP (fun x => x.color = c)
          = hand.countP (fun x => x.color = AIPlayer.chooseColor hand) →
        (AIPlayer.chooseColor hand).toNat ≤ c.toNat)
    ∧ AIPlayer.chooseColor [] = Color.Red := by
  have hc := AIPlayer.chooseColor_concrete hand
  obtain ⟨hlt, hmax, hfirst⟩ := AIPlayer.maxIndex_spec
    (hand.countP (fun x => x.color = Color.Red))
    (hand.countP (fun x => x.color = Color.Pink))
    (hand.countP (fun x => x.color = Color.Purple))
    (hand.countP (fun x => x.color = Color.Yellow))
  have hres := AIPlayer.chooseColor_eq hand
  obtain ⟨hnat, _⟩ := Color.ofNat?_lt_four _ hlt
  rw [← hres] at hnat
  have hcount := AIPlayer.count_getD hand (AIPlayer.chooseColor hand) hc.ne_None
  rw [hnat] at hcount
  have hlt4 : ∀ c : Color, c ≠ Color.None → c.toNat < 4 := by
    intro c hne
    cases c <;> first
      | exact absurd rfl hne
      | decide
  refine ⟨hc, hc.ne_None, ?_, ?_, rfl⟩
  · intro c hne
    rw [← AIPlayer.count_getD hand c hne, ← hcount]
    exact hmax c.toNat (hlt4 c hne)
  · intro c hne heq
    rw [← AIPlayer.count_getD hand c hne, ← hcount] at heq
    rw [hnat]
    exact hfirst c.toNat (hlt4 c hne) heq

/-! ## Shuffle: theorems -/

/-- Putting `x` where `b` stood and `b` in front is a rearrangement. -/
theorem Deck.perm_cons_set (xs : List Card) (j : Nat) (b x : Card)
    (h : xs[j]? = some b) : (b :: xs.set j x).Perm (x :: xs) := by
  induction xs generalizing j with
  | nil => simp at h
  | cons y t ih =>
    cases j with
    | zero =>
      have hy : y = b := by simpa using h
      subst hy
      exact List.Perm.swap _ _ _
    | succ j =>
      have h' : t[j]? = some b := by simpa using h
      have h1 : (b :: y :: t.set j x).Perm (y :: b :: t.set j x) := List.Perm.swap _ _ _
      have h2 : (y :: b :: t.set j x).Perm (y :: x :: t) := (ih j h').cons y
      have h3 : (y :: x :: t).Perm (x :: y :: t) := List.Perm.swap _ _ _
      simpa using (h1.trans h2).trans h3

/-- Writing at two positions what stood at the other one is a rearrangement. -/
theorem Deck.set_set_perm (cards : List Card) (i j : Nat) (a b : Card)
    (hi : cards[i]? = some a) (hj : cards[j]? = some b) :
    ((cards.set i b).set j a).Perm cards := by
  induction cards generalizing i j with
  | nil => simp at hi
  | cons x t ih =>
    cases i with
    | zero =>
      have hx : x = a := by simpa using hi
      subst hx
      cases j with
      | zero =>
        have hb : x = b := by simpa using hj
        subst hb
        simp
      | succ j =>
        have hj2 : t[j]? = some b := by simpa using hj
        simpa using Deck.perm_cons_set t j b x hj2
    | succ i =>
      have hi2 : t[i]? = some a := by simpa using hi
      cases j with
      | zero =>
        have hb : x = b := by simpa using hj
        subst hb
        simpa using Deck.perm_cons_set t i a x hi2
      | succ j =>
        have hj2 : t[j]? = some b := by simpa using hj
        simpa using (ih i j hi2 hj2).cons x

/-- The exchange of two positions is a rearrangement. -/
theorem Deck.swapAt_perm (cards : List Card) (i j : Nat) :
    (Deck.swapAt cards i j).Perm cards := by
  unfold Deck.swapAt
  cases hi : cards[i]? with
  | none => exact List.Perm.refl _
  | some a =>
    cases hj : cards[j]? with
    | none => exact List.Perm.refl _
    | some b => exact Deck.set_set_perm cards i j a b hi hj

/-- The loop of `std::shuffle` rearranges the vector, whatever the generator
yields. -/
theorem Deck.shuffleLoop_perm (rnd : Nat → Nat) (k : Nat) (cards : List Card) :
    (Deck.shuffleLoop rnd k cards).Perm cards := by
  induction k generalizing cards with
  | zero => exact List.Perm.refl _
  | succ k ih =>
    simp only [Deck.shuffleLoop]
    exact (ih _).trans (Deck.swapAt_perm cards _ _)

/-- The sort key tells the cards apart. -/
theorem Card.sortKey_injective (a b : Card) (h : a.sortKey = b.sortKey) : a = b := by
  obtain ⟨ac, av⟩ := a
  obtain ⟨bc, bv⟩ := b
  have hav : av.toNat < 14 := by cases av <;> decide
  have hbv : bv.toNat < 14 := by cases bv <;> decide
  simp only [Card.sortKey] at h
  have hc : ac.toNat = bc.toNat := by omega
  have hv : av.toNat = bv.toNat := by omega
  have hc2 : ac = bc := by
    cases ac <;> cases bc <;> first
      | rfl
      | exact absurd hc (by decide)
  have hv2 : av = bv := by
    cases av <;> cases bv <;> first
      | rfl
      | exact absurd hv (by decide)
  rw [hc2, hv2]

/-- Two decks with the same cards are the same once sorted. -/
theorem Deck.sorted_eq_of_perm (d e : Deck) (h : d.cards.Perm e.cards) :
    d.sorted = e.sorted := by
  unfold Deck.sorted
  haveI : IsTotal Card (fun a b => a.sortKey ≤ b.sortKey) := ⟨fun a b => Nat.le_total _ _⟩
  haveI : IsTrans Card (fun a b => a.sortKey ≤ b.sortKey) :=
    ⟨fun a b c hab hbc => Nat.le_trans hab hbc⟩
  haveI : IsAntisymm Card (fun a b => a.sortKey ≤ b.sortKey) :=
    ⟨fun a b hab hba => Card.sortKey_injective a b (Nat.le_antisymm hab hba)⟩
  refine List.eq_of_perm_of_sorted ?_ (List.sorted_insertionSort _ _)
    (List.sorted_insertionSort _ _)
  exact ((List.perm_insertionSort _ _).trans h).trans (List.perm_insertionSort _ _).symm

/-- C16: whatever the random source yields, the deck after `shuffle` is a
rearrangement of the deck before: same size, same number of copies of every
card, same sequence once sorted; and a freshly constructed deck has the 90
cards of `initialize`, each as often as `initialize` builds it. -/
theorem Deck.shuffle_perm (d : Deck) (rnd : Nat → Nat) :
    (d.shuffle rnd).cards.Perm d.cards
    ∧ (d.shuffle rnd).cards.length = d.cards.length
    ∧ (∀ c : Card, (d.shuffle rnd).cards.count c = d.cards.count c)
    ∧ (d.shuffle rnd).sorted = d.sorted
    ∧ (Deck.new rnd).cards.Perm ( Deck.initialize { cards := [] }).cards
    ∧ (Deck.new rnd).cards.length = 90
    ∧ (∀ c : Card, (Deck.new rnd).cards.count c
        = ( Deck.initialize { cards := [] }).cards.count c) := by
  have hp : ∀ e : Deck, (e.shuffle rnd).cards.Perm e.cards := fun e =>
    Deck.shuffleLoop_perm rnd _ e.cards
  have hnew := hp ( Deck.initialize { cards := [] })
  refine ⟨hp d, (hp d).length_eq, fun c => (hp d).count_eq c,
    Deck.sorted_eq_of_perm _ _ (hp d), hnew, ?_, fun c => hnew.count_eq c⟩
  have h90 : ( Deck.initialize { cards := [] }).cards.length = 90 := by decide
  rw [← h90]
  exact hnew.length_eq

/-! ## The interactive player: theorems -/

/-- C14: the integers 0 to 5 pass the test of line 118.  On the entry 4
`chooseColor` returns `Color::None`, on the entry 5 a value that no enumerator
of `Color` has; other text, 7 and -1 are answered with a new prompt, after
which the entry 2 gives Purple. -/
theorem HumanPlayer.chooseColor_returns_None :
    HumanPlayer.chooseColor 1 (Console.lines [Entry.int 4])
      = some (some Color.None, [Token.newline])
    ∧ HumanPlayer.chooseColor 1 (Console.lines [Entry.int 5])
      = some (none, [Token.newline])
    ∧ HumanPlayer.chooseColor 4
        (Console.lines [Entry.malformed, Entry.int 7, Entry.int (-1), Entry.int 2])
      = some (some Color.Purple, [Token.newline])
    ∧ HumanPlayer.chooseColor 4
        (Console.lines [Entry.malformed, Entry.int 7, Entry.int (-1), Entry.int 4])
      = some (some Color.None, [Token.newline]) := by
  refine ⟨rfl, rfl, rfl, rfl⟩

/-- A leading end of line is white space to `playTurn`. -/
theorem HumanPlayer.playTurn_newline (hand : List Card) (topCard : Card) (fuel : Nat)
    (s : List Token) :
    HumanPlayer.playTurn hand topCard fuel (Token.newline :: s)
      = HumanPlayer.playTurn hand topCard fuel s := by
  cases fuel with
  | zero => rfl
  | succ n => simp [HumanPlayer.playTurn, Console.readInt]

/-- At the end of the input `playTurn` does not return. -/
theorem HumanPlayer.playTurn_eof (hand : List Card) (topCard : Card) (fuel : Nat) :
    HumanPlayer.playTurn hand topCard fuel [] = none := by
  induction fuel with
  | zero => rfl
  | succ n ih => simpa [HumanPlayer.playTurn, Console.readInt, Console.ignoreLine] using ih

/-- An integer that is accepted fits an `int` when the hand does. -/
theorem HumanPlayer.Accepts.inRange {hand : List Card} {topCard : Card} {k : Int}
    (h : HumanPlayer.Accepts hand topCard k) (hlen : hand.length < 2 ^ 31) :
    -(2 : Int) ^ 31 ≤ k ∧ k < (2 : Int) ^ 31 := by
  have hl : (hand.length : Int) < 2147483648 := by exact_mod_cast hlen
  have e : (2 : Int) ^ 31 = 2147483648 := by norm_num
  rw [e]
  rcases h with h | ⟨h1, h2, _⟩
  · rw [h]
    omega
  · omega

/-- The extraction of an integer that fits an `int`. -/
theorem Console.readInt_num (n : Int) (rest : List Token)
    (h : -(2 : Int) ^ 31 ≤ n ∧ n < (2 : Int) ^ 31) :
    Console.readInt (Token.num n :: rest) = (some n, rest) := by
  unfold Console.readInt
  rw [if_pos h]

/-- The extraction of an integer that does not fit an `int` fails. -/
theorem Console.readInt_overflow (n : Int) (rest : List Token)
    (h : ¬ (-(2 : Int) ^ 31 ≤ n ∧ n < (2 : Int) ^ 31)) :
    Console.readInt (Token.num n :: rest) = (none, rest) := by
  unfold Console.readInt
  rw [if_neg h]

/-- Reading `hand[i]` at an index inside the hand. -/
theorem Game.cardAt_ok (hand : List Card) (i : Int) (c : Card) (h0 : 0 ≤ i)
    (hc : hand[i.toNat]? = some c) : Game.cardAt hand i = Except.ok c := by
  unfold Game.cardAt
  rw [if_pos h0, hc]

/-- An accepted entry ends `playTurn` with the entry minus one. -/
theorem HumanPlayer.playTurn_accept (hand : List Card) (topCard : Card) (fuel : Nat)
    (k : Int) (later : List Entry) (hlen : hand.length < 2 ^ 31)
    (h : HumanPlayer.Accepts hand topCard k) :
    HumanPlayer.playTurn hand topCard (fuel + 1) (Console.lines (Entry.int k :: later))
      = some (k - 1, Token.newline :: Console.lines later) := by
  have hr := h.inRange hlen
  rcases h with h | ⟨h1, h2, c, hc, hplay⟩
  · subst h
    simp only [HumanPlayer.playTurn, Console.lines, Console.readInt_num _ _ hr, if_true]
    rfl
  · have h0 : k ≠ 0 := by omega
    have hin : ¬ (k < 1 ∨ k > (hand.length : Int)) := by omega
    have hcard : Game.cardAt hand (k - 1) = Except.ok c :=
      Game.cardAt_ok hand (k - 1) c (by omega) hc
    simp only [HumanPlayer.playTurn, Console.lines, Console.readInt_num _ _ hr, if_neg h0,
      if_neg hin, hcard, hplay, if_true]

/-- A rejected entry costs one iteration of `playTurn` and nothing else. -/
theorem HumanPlayer.playTurn_reject (hand : List Card) (topCard : Card) (fuel : Nat)
    (e : Entry) (later : List Entry) (h : HumanPlayer.Rejects hand topCard e) :
    HumanPlayer.playTurn hand topCard (fuel + 1) (Console.lines (e :: later))
      = HumanPlayer.playTurn hand topCard fuel (Console.lines later) := by
  cases e with
  | malformed =>
    simp only [HumanPlayer.playTurn, Console.lines, Console.readInt, Console.ignoreLine]
  | int k =>
    have hrej : ¬ HumanPlayer.Accepts hand topCard k := h
    by_cases hr : -(2 : Int) ^ 31 ≤ k ∧ k < (2 : Int) ^ 31
    · have h0 : k ≠ 0 := fun hk => hrej (Or.inl hk)
      by_cases hin : k < 1 ∨ k > (hand.length : Int)
      · simp only [HumanPlayer.playTurn, Console.lines, Console.readInt_num _ _ hr, if_neg h0,
          if_pos hin, HumanPlayer.playTurn_newline]
      · have hlt : (k - 1).toNat < hand.length := by omega
        have hcard : Game.cardAt hand (k - 1) = Except.ok hand[(k - 1).toNat] :=
          Game.cardAt_ok hand (k - 1) _ (by omega) (List.getElem?_eq_getElem hlt)
        have hplay : (hand[(k - 1).toNat]).canPlayOn topCard = false := by
          cases hp : (hand[(k - 1).toNat]).canPlayOn topCard with
          | false => rfl
          | true =>
            exact absurd (Or.inr ⟨by omega, by omega, _, List.getElem?_eq_getElem hlt, hp⟩)
              hrej
        simp only [HumanPlayer.playTurn, Console.lines, Console.readInt_num _ _ hr, if_neg h0,
          if_neg hin, hcard, hplay, Bool.false_eq_true, if_false,
          HumanPlayer.playTurn_newline]
    · simp only [HumanPlayer.playTurn, Console.lines, Console.readInt_overflow _ _ hr,
        Console.ignoreLine]

/-- Whatever stands on the input, what `playTurn` returns is the draw signal or
an index inside the hand whose card can be played on the active card. -/
theorem HumanPlayer.playTurn_valid (hand : List Card) (topCard : Card) (fuel : Nat)
    (stdin : List Token) (r : Int) (rest : List Token)
    (h : HumanPlayer.playTurn hand topCard fuel stdin = some (r, rest)) :
    r = -1 ∨ (0 ≤ r ∧ r < (hand.length : Int)
      ∧ ∃ c, hand[r.toNat]? = some c ∧ c.canPlayOn topCard = true) := by
  induction fuel generalizing stdin with
  | zero => exact Option.noConfusion h
  | succ fuel ih =>
    unfold HumanPlayer.playTurn at h
    cases hread : Console.readInt stdin with
    | mk o s =>
      rw [hread] at h
      cases o with
      | none => exact ih _ h
      | some choice =>
        simp only at h
        by_cases h0 : choice = 0
        · rw [if_pos h0] at h
          injection h with h
          injection h with hr _
          exact Or.inl hr.symm
        · rw [if_neg h0] at h
          by_cases hin : choice < 1 ∨ choice > (hand.length : Int)
          · rw [if_pos hin] at h
            exact ih _ h
          · rw [if_neg hin] at h
            cases hcard : Game.cardAt hand (choice - 1) with
            | error e =>
              rw [hcard] at h
              exact Option.noConfusion h
            | ok c =>
              rw [hcard] at h
              simp only at h
              by_cases hp : c.canPlayOn topCard = true
              · rw [if_pos hp] at h
                injection h with h
                injection h with hr _
                refine Or.inr ⟨by omega, by omega, c, ?_, hp⟩
                unfold Game.cardAt at hcard
                split_ifs at hcard
                rw [← hr]
                cases hx : hand[(choice - 1).toNat]? with
                | none =>
                  rw [hx] at hcard
                  exact Except.noConfusion hcard
                | some c2 =>
                  rw [hx] at hcard
                  injection hcard with hcard
                  rw [hcard]
              · rw [if_neg hp] at h
                exact ih _ h

/-- C15: on entries typed one to a line, with a hand that an `int` can index,
whenever `playTurn` returns it has skipped entries that are all malformed, out
of range or not playable, and then met the first accepted entry `k`; it
returns `k - 1`, which is the draw signal exactly for `k = 0` and otherwise an
index inside the hand whose card can be played on the active card.  With more
iterations than skipped entries it does return.  On any input at all, what it
returns is the draw signal or the index of a card that can be played.  The
hand and the active card are only read. -/
theorem HumanPlayer.playTurn_first_accepted (hand : List Card) (topCard : Card)
    (entries : List Entry) (hlen : hand.length < 2 ^ 31) :
    (∀ fuel r rest,
      HumanPlayer.playTurn hand topCard fuel (Console.lines entries) = some (r, rest) →
      ∃ skipped k later, entries = skipped ++ Entry.int k :: later
        ∧ (∀ e ∈ skipped, HumanPlayer.Rejects hand topCard e)
        ∧ HumanPlayer.Accepts hand topCard k
        ∧ r = k - 1
        ∧ rest = Token.newline :: Console.lines later
        ∧ (r = -1 ↔ k = 0)
        ∧ (r ≠ -1 → 0 ≤ r ∧ r < (hand.length : Int)
            ∧ ∃ c, hand[r.toNat]? = some c ∧ c.canPlayOn topCard = true))
    ∧ (∀ skipped k later, entries = skipped ++ Entry.int k :: later →
        (∀ e ∈ skipped, HumanPlayer.Rejects hand topCard e) →
        HumanPlayer.Accepts hand topCard k →
        ∀ fuel, skipped.length < fuel →
          HumanPlayer.playTurn hand topCard fuel (Console.lines entries)
            = some (k - 1, Token.newline :: Console.lines later))
    ∧ (∀ fuel stdin r rest,
        HumanPlayer.playTurn hand topCard fuel stdin = some (r, rest) →
        r = -1 ∨ (0 ≤ r ∧ r < (hand.length : Int)
          ∧ ∃ c, hand[r.toNat]? = some c ∧ c.canPlayOn topCard = true)) := by
  refine ⟨?_, ?_, fun fuel stdin r rest h =>
    HumanPlayer.playTurn_valid hand topCard fuel stdin r rest h⟩
  · induction entries with
    | nil =>
      intro fuel r rest h
      simp [Console.lines, HumanPlayer.playTurn_eof] at h
    | cons e es ih =>
      intro fuel r rest h
      cases fuel with
      | zero => simp [HumanPlayer.playTurn] at h
      | succ fuel =>
        by_cases hrej : HumanPlayer.Rejects hand topCard e
        · rw [HumanPlayer.playTurn_reject hand topCard fuel e es hrej] at h
          obtain ⟨skipped, k, later, h1, h2, h3, h4, h5, h6, h7⟩ := ih fuel r rest h
          refine ⟨e :: skipped, k, later, by rw [h1]; rfl, ?_, h3, h4, h5, h6, h7⟩
          intro x hx
          rcases List.mem_cons.mp hx with rfl | hx
          · exact hrej
          · exact h2 x hx
        · cases e with
          | malformed => exact absurd trivial hrej
          | int k =>
            have hacc : HumanPlayer.Accepts hand topCard k := by
              by_contra hn
              exact hrej hn
            rw [HumanPlayer.playTurn_accept hand topCard fuel k es hlen hacc] at h
            injection h with h
            injection h with hr hrest
            refine ⟨[], k, es, rfl, by simp, hacc, hr.symm, hrest.symm, ?_, ?_⟩
            · rw [← hr]
              constructor <;> intro hk <;> omega
            · intro hne
              rcases hacc with h0 | ⟨h1, h2, c, hc, hplay⟩
              · rw [← hr, h0] at hne
                exact absurd rfl hne
              · rw [← hr]
                exact ⟨by omega, by omega, c, hc, hplay⟩
  · intro skipped
    induction skipped generalizing entries with
    | nil =>
      intro k later he _ hacc fuel hfuel
      cases fuel with
      | zero => simp at hfuel
      | succ fuel =>
        rw [he]
        exact HumanPlayer.playTurn_accept hand topCard fuel k later hlen hacc
    | cons e skipped ih =>
      intro k later he hrej hacc fuel hfuel
      cases fuel with
      | zero => simp at hfuel
      | succ fuel =>
        rw [he]
        show HumanPlayer.playTurn hand topCard (fuel + 1)
          (Console.lines (e :: (skipped ++ Entry.int k :: later))) = _
        rw [HumanPlayer.playTurn_reject hand topCard fuel e _
          (hrej e (List.mem_cons_self _ _))]
        exact ih (skipped ++ Entry.int k :: later) k later rfl
          (fun x hx => hrej x (List.mem_cons_of_mem _ hx)) hacc fuel
          (by simp at hfuel; omega)

/-- C15, at a hand of a red Seven and a pink Eight on a red Two, with the
entries "x", 9, 2 and 1: the text, the number out of range and the pink Eight
that cannot be played are skipped, and the entry 1 returns index 0. -/
theorem HumanPlayer.playTurn_first_accepted_witness :
    HumanPlayer.playTurn [Card.mk Color.Red Value.Seven, Card.mk Color.Pink Value.Eight]
      (Card.mk Color.Red Value.Two) 4
      (Console.lines [Entry.malformed, Entry.int 9, Entry.int 2, Entry.int 1])
    = some (0, [Token.newline]) :=
  (HumanPlayer.playTurn_first_accepted
    [Card.mk Color.Red Value.Seven, Card.mk Color.Pink Value.Eight]
    (Card.mk Color.Red Value.Two)
    [Entry.malformed, Entry.int 9, Entry.int 2, Entry.int 1] (by decide)).2.1
    [Entry.malformed, Entry.int 9, Entry.int 2] 1 [] rfl
    (by
      intro e he
      simp only [List.mem_cons, List.mem_singleton, List.not_mem_nil, or_false] at he
      rcases he with rfl | rfl | rfl
      · trivial
      · intro h
        rcases h with h | ⟨_, h, _⟩
        · exact absurd h (by decide)
        · exact absurd h (by decide)
      · intro h
        rcases h with h | ⟨_, _, c, hc, hp⟩
        · exact absurd h (by decide)
        · have hc2 : c = Card.mk Color.Pink Value.Eight := by
            have : (some (Card.mk Color.Pink Value.Eight) : Option Card) = some c := hc
            injection this with this
            exact this.symm
          rw [hc2] at hp
          exact absurd hp (by decide))
    (Or.inr ⟨by decide, by decide, Card.mk Color.Red Value.Seven, rfl, rfl⟩)
    4 (by decide)
